import Mathlib

/-!
Verification of the Loki table metadata store (table storage emulator core).

The definitions below are a shallow embedding of the store operations in
src/table/persistence/LokiTableMetadataStore.ts: entity CRUD with ETag
checks, the batch-transaction undo logs, the paginated entity query engine
with Base64 continuation tokens, and the OData filter tokenizer/rewriter.

Modelling conventions:
  - JS objects used as property bags become insertion-ordered association
    lists with JS object-update semantics (overwrite in place, append new).
  - Property values are modelled opaquely as strings; none of the verified
    operations inspects a value.
  - Loki collections become lists of rows tagged with a numeric id playing
    the role of the $loki id: insert assigns a fresh id, remove and update
    address rows by id, findOne scans in insertion order.
  - The timestamp formatter getTimestampString lives outside this file
    (utils/utils); operations take it as an explicit parameter fmt, and
    lastModifiedTime is an opaque Nat.
  - Undefined-able JS values become Option; JS throw becomes Except, and
    because a JS method can mutate the store before throwing, every
    mutating operation returns the post-state paired with the outcome.
  - The table-registry and collection-existence guards (table-not-exist)
    precede everything the claims below talk about; the model works inside
    one existing table entity collection.
-/

namespace Azurite

/-- Single-quote character, built numerically to keep source lines plain. -/
def squote : Char := Char.ofNat 39

/-- Backtick character. -/
def btick : Char := Char.ofNat 96

/-- Single-quote as a one-character string. -/
def squoteS : String := String.mk [squote]

/-- Backtick as a one-character string. -/
def btickS : String := String.mk [btick]

/-- The ODATA_TYPE constant from utils/constants: the companion-key tail. -/
def ODATA_TYPE : String := "@odata.type"

/-- JS-object property bag: insertion-ordered key/value pairs. -/
abbrev PropBag := List (String × String)

/-- Read a property (first binding wins; bags built by objSet are duplicate-free). -/
def objGet (m : PropBag) (k : String) : Option String :=
  (m.find? (fun p => p.1 = k)).map (fun p => p.2)

/-- JS object assignment: overwrite in place when the key exists, else append. -/
def objSet (m : PropBag) (k v : String) : PropBag :=
  if m.any (fun p => p.1 = k) then
    m.map (fun p => if p.1 = k then (k, v) else p)
  else
    m ++ [(k, v)]

/-- JS delete of an object key. -/
def objDelete (m : PropBag) (k : String) : PropBag :=
  m.filter (fun p => p.1 ≠ k)

/-- Entity record (interface Entity of ITableMetadataStore). -/
structure Entity where
  PartitionKey : String
  RowKey : String
  properties : PropBag
  lastModifiedTime : Nat
  eTag : String
deriving Repr, DecidableEq

/-- A stored row: an entity together with its collection id (the $loki id). -/
structure Row where
  id : Nat
  ent : Entity
deriving Repr, DecidableEq

/-- A Loki collection of entities: rows in insertion order plus an id counter. -/
structure Coll where
  rows : List Row
  nextId : Nat
deriving Repr, DecidableEq

/-- findOne with filter on PartitionKey and RowKey: first matching row. -/
def Coll.findOne (c : Coll) (pk rk : String) : Option Row :=
  c.rows.find? (fun r => r.ent.PartitionKey = pk && r.ent.RowKey = rk)

/-- Loki insert: append a row carrying a fresh id. -/
def Coll.insertRow (c : Coll) (e : Entity) : Coll :=
  { rows := c.rows ++ [{ id := c.nextId, ent := e }], nextId := c.nextId + 1 }

/-- Loki remove(doc): drop the row with the same id. -/
def Coll.removeRow (c : Coll) (r : Row) : Coll :=
  { c with rows := c.rows.filter (fun x => x.id ≠ r.id) }

/-- Loki update(doc): replace the entity carried by the row with the given id. -/
def Coll.updateRow (c : Coll) (i : Nat) (e : Entity) : Coll :=
  { c with rows := c.rows.map (fun x => if x.id = i then { x with ent := e } else x) }

/-- Store state visible to the claims: one table entity collection plus the
two batch undo logs (transactionRollbackTheseEntities and
transactionDeleteTheseEntities). -/
structure StoreState where
  coll : Coll
  rollbackLog : List Row
  deleteLog : List Row
deriving Repr, DecidableEq

/-- Errors thrown by StorageErrorFactory in the modelled operations. -/
inductive StorageErr where
  | entityAlreadyExists
  | entityNotFound
  | preconditionFailed
  | propertiesNeedValue
  | queryConditionInvalid
  | transactionOverlap
deriving Repr, DecidableEq

/-- Replace the first colon of a character list by the three characters
of the escape %3A (the JS string replace of one occurrence). -/
def replaceFirstColon : List Char → List Char
  | [] => []
  | c :: rest =>
    if c = ':' then '%' :: '3' :: 'A' :: rest else c :: replaceFirstColon rest

/-- eTag.replace telescoped twice in updateTableEntity and mergeTableEntity:
the first two colons become %3A. -/
def urlencodeColons (s : String) : String :=
  String.mk (replaceFirstColon (replaceFirstColon s.toList))

/-- Set properties.Timestamp from the formatted lastModifiedTime and tag it
Edm.DateTime, exactly as insertTableEntity and updateTableEntity do. -/
def setTimestamp (fmt : Nat → String) (e : Entity) : Entity :=
  let p1 := objSet e.properties "Timestamp" (fmt e.lastModifiedTime)
  let p2 := objSet p1 ("Timestamp" ++ ODATA_TYPE) "Edm.DateTime"
  { e with properties := p2 }

/-- insertTableEntity on the entity collection: duplicate key check, stamp
Timestamp, log the inserted row for rollback when a batch id is present
(batchId strictly different from the empty string and from undefined),
then insert. -/
def insertTableEntity (fmt : Nat → String) (s : StoreState) (e : Entity)
    (batchId : Option String) : StoreState × Except StorageErr Entity :=
  match s.coll.findOne e.PartitionKey e.RowKey with
  | some _ => (s, .error .entityAlreadyExists)
  | none =>
    let e2 := setTimestamp fmt e
    let row : Row := { id := s.coll.nextId, ent := e2 }
    let dlog :=
      if batchId ≠ some "" ∧ batchId ≠ none then s.deleteLog ++ [row]
      else s.deleteLog
    ({ coll := s.coll.insertRow e2, rollbackLog := s.rollbackLog,
       deleteLog := dlog }, .ok e2)

/-- updateTableEntity: find the target, push its pre-image to the rollback
log whenever batchId is not the empty string (including undefined), then
validate the ETag on colon-encoded forms and replace the record. -/
def updateTableEntity (fmt : Nat → String) (s : StoreState) (entity : Entity)
    (ifMatch : Option String) (batchId : Option String) :
    StoreState × Except StorageErr Entity :=
  match s.coll.findOne entity.PartitionKey entity.RowKey with
  | none => (s, .error .entityNotFound)
  | some doc =>
    let s1 :=
      if batchId ≠ some "" then
        { s with rollbackLog := s.rollbackLog ++ [doc] }
      else s
    let encodedEtag := urlencodeColons doc.ent.eTag
    let encodedIfMatch := ifMatch.map urlencodeColons
    if encodedIfMatch = none ∨ encodedIfMatch = some "*" ∨
        some encodedEtag = encodedIfMatch then
      let e2 := setTimestamp fmt entity
      ({ s1 with coll := (s1.coll.removeRow doc).insertRow e2 }, .ok e2)
    else
      (s1, .error .preconditionFailed)

/-- The inner property merge of mergeTableEntity: start from the stored
properties, then for every incoming key that does not end with the
ODATA_TYPE tail, overwrite the value and synchronise the companion
type tag (overwrite when the incoming tag is defined, delete otherwise). -/
def mergeProps (docProps incoming : PropBag) : PropBag :=
  incoming.foldl
    (fun acc kv =>
      if kv.1.endsWith ODATA_TYPE then acc
      else
        let acc1 := objSet acc kv.1 kv.2
        match objGet incoming (kv.1 ++ ODATA_TYPE) with
        | some tv => objSet acc1 (kv.1 ++ ODATA_TYPE) tv
        | none => objDelete acc1 (kv.1 ++ ODATA_TYPE))
    docProps

/-- mergeTableEntity: same lookup, rollback logging and ETag validation as
update; on success the merged entity keeps the stored properties overlaid
with the incoming ones (spread of doc then entity for the scalar fields)
and replaces the row in place. Note that no Timestamp restamping happens
on this path. -/
def mergeTableEntity (s : StoreState) (entity : Entity)
    (ifMatch : Option String) (batchId : Option String) :
    StoreState × Except StorageErr Entity :=
  match s.coll.findOne entity.PartitionKey entity.RowKey with
  | none => (s, .error .entityNotFound)
  | some doc =>
    let s1 :=
      if batchId ≠ some "" then
        { s with rollbackLog := s.rollbackLog ++ [doc] }
      else s
    let encodedEtag := urlencodeColons doc.ent.eTag
    let encodedIfMatch := ifMatch.map urlencodeColons
    if encodedIfMatch = none ∨ encodedIfMatch = some "*" ∨
        some encodedEtag = encodedIfMatch then
      let merged : Entity :=
        { PartitionKey := entity.PartitionKey
          RowKey := entity.RowKey
          properties := mergeProps doc.ent.properties entity.properties
          lastModifiedTime := entity.lastModifiedTime
          eTag := entity.eTag }
      ({ s1 with coll := s1.coll.updateRow doc.id merged }, .ok merged)
    else
      (s1, .error .preconditionFailed)

/-- deleteTableEntity: keys must both be present, the entity must exist, the
ETag is compared raw (star bypasses), the pre-image is logged when batchId
is not the empty string, then the row is removed. -/
def deleteTableEntity (s : StoreState) (partitionKey rowKey : Option String)
    (etag : String) (batchId : String) :
    StoreState × Except StorageErr Unit :=
  match partitionKey, rowKey with
  | some pk, some rk =>
    (match s.coll.findOne pk rk with
     | none => (s, .error .entityNotFound)
     | some doc =>
       if etag ≠ "*" ∧ doc.ent.eTag ≠ etag then
         (s, .error .preconditionFailed)
       else
         let s1 :=
           if batchId ≠ "" then
             { s with rollbackLog := s.rollbackLog ++ [doc] }
           else s
         ({ s1 with coll := s1.coll.removeRow doc }, .ok ()))
  | _, _ => (s, .error .propertiesNeedValue)

/-- beginBatchTransaction: fatal when either undo log is non-empty,
otherwise nothing happens. -/
def beginBatchTransaction (s : StoreState) : Except StorageErr Unit :=
  if s.rollbackLog.length > 0 ∨ s.deleteLog.length > 0 then
    .error .transactionOverlap
  else
    .ok ()

/-- The field-by-field copy of a logged entity taken by the rollback
(shedding any collection metadata); on the modelled fields it is the
identity. -/
def cleanCopy (e : Entity) : Entity :=
  { PartitionKey := e.PartitionKey
    RowKey := e.RowKey
    properties := e.properties
    lastModifiedTime := e.lastModifiedTime
    eTag := e.eTag }

/-- Restore one rollback pre-image: remove any current row with the same
primary key, then insert a clean copy of the logged entity. -/
def restorePreImage (c : Coll) (row : Row) : Coll :=
  let c1 :=
    match c.findOne row.ent.PartitionKey row.ent.RowKey with
    | some d => c.removeRow d
    | none => c
  c1.insertRow (cleanCopy row.ent)

/-- endBatchTransaction: on failure replay the rollback log and delete the
rows recorded as inserted during the batch; both logs are reset at the end
in every case. (The source also guards on the collection still existing;
the model works inside one live collection.) -/
def endBatchTransaction (s : StoreState) (succeeded : Bool) : StoreState :=
  let coll :=
    if succeeded then s.coll
    else
      let c1 := s.rollbackLog.foldl restorePreImage s.coll
      s.deleteLog.foldl (fun c r => c.removeRow r) c1
  { coll := coll, rollbackLog := [], deleteLog := [] }

/-! ### JS string comparison

JS compares strings by code units; the model compares code points, which
agrees on all concrete inputs used below. The comparator is written over
character lists so that it evaluates inside the kernel. -/

/-- JS string less-than, on character lists. -/
def jsLtChars : List Char → List Char → Bool
  | _, [] => false
  | [], _ :: _ => true
  | a :: as, b :: bs =>
    if a.toNat < b.toNat then true
    else if b.toNat < a.toNat then false
    else jsLtChars as bs

/-- JS string less-than. -/
def jsLt (a b : String) : Bool := jsLtChars a.toList b.toList

/-- JS string at-most: for strings, a <= b is the negation of b < a. -/
def jsLe (a b : String) : Bool := !(jsLt b a)

theorem jsLtChars_asymm : ∀ a b, jsLtChars a b = true → jsLtChars b a = false
  | _, [], h => by simp [jsLtChars] at h
  | [], _ :: _, _ => by simp [jsLtChars]
  | a :: as, b :: bs, h => by
    simp only [jsLtChars] at h ⊢
    by_cases hab : a.toNat < b.toNat
    · have : ¬ b.toNat < a.toNat := by omega
      simp [hab, this]
    · by_cases hba : b.toNat < a.toNat
      · simp [hab, hba] at h
      · simp only [hab, hba, if_false, if_neg] at h ⊢
        simp [hab, hba, jsLtChars_asymm as bs h]

theorem eq_of_toNat_eq {a b : Char} (h : a.toNat = b.toNat) : a = b := by
  have := congrArg Char.ofNat h
  simpa [Char.ofNat_toNat] using this

theorem jsLtChars_conn : ∀ a b, jsLtChars a b = false → jsLtChars b a = false → a = b
  | [], [], _, _ => rfl
  | _ :: _, [], _, h2 => by simp [jsLtChars] at h2
  | [], _ :: _, h1, _ => by simp [jsLtChars] at h1
  | a :: as, b :: bs, h1, h2 => by
    simp only [jsLtChars] at h1 h2
    by_cases hab : a.toNat < b.toNat
    · simp [hab] at h1
    · by_cases hba : b.toNat < a.toNat
      · simp [hba, hab] at h2
      · simp only [hab, hba, if_false] at h1 h2
        have hc : a = b := eq_of_toNat_eq (by omega)
        simp [hc, jsLtChars_conn as bs h1 h2]

theorem jsLtChars_trans :
    ∀ a b c, jsLtChars a b = true → jsLtChars b c = true → jsLtChars a c = true
  | _, _, [], _, h2 => by simp [jsLtChars] at h2
  | [], b, c :: cs, _, _ => by simp [jsLtChars]
  | a :: as, b, c :: cs, h1, h2 => by
    match b with
    | [] => simp [jsLtChars] at h1
    | b0 :: bs =>
      simp only [jsLtChars] at h1 h2 ⊢
      by_cases h₁ : a.toNat < b0.toNat <;> by_cases h₂ : b0.toNat < c.toNat <;>
        by_cases h₃ : b0.toNat < a.toNat <;> by_cases h₄ : c.toNat < b0.toNat <;>
        simp_all <;>
        first
        | omega
        | (have hac : a.toNat < c.toNat := by omega
           simp [hac])
        | (have hac : a = c := eq_of_toNat_eq (by omega)
           have hab : a = b0 := eq_of_toNat_eq (by omega)
           subst hac hab
           simp_all
           exact jsLtChars_trans as bs cs h1 h2)

/-! ### Base64 and UTF-8 for continuation tokens -/

/-- Value 0..63 to base64 alphabet character. -/
def b64CharOfVal (v : Nat) : Char :=
  if v < 26 then Char.ofNat (65 + v)
  else if v < 52 then Char.ofNat (97 + (v - 26))
  else if v < 62 then Char.ofNat (48 + (v - 52))
  else if v = 62 then '+'
  else '/'

/-- Base64 alphabet character to its 6-bit value. -/
def b64ValOfChar (c : Char) : Option Nat :=
  let n := c.toNat
  if 65 ≤ n ∧ n ≤ 90 then some (n - 65)
  else if 97 ≤ n ∧ n ≤ 122 then some (n - 97 + 26)
  else if 48 ≤ n ∧ n ≤ 57 then some (n - 48 + 52)
  else if n = 43 then some 62
  else if n = 47 then some 63
  else none

/-- Standard base64 encoding of a byte list, with padding. -/
def b64EncodeBytes : List Nat → List Char
  | b1 :: b2 :: b3 :: rest =>
    b64CharOfVal (b1 / 4) :: b64CharOfVal (b1 % 4 * 16 + b2 / 16) ::
      b64CharOfVal (b2 % 16 * 4 + b3 / 64) :: b64CharOfVal (b3 % 64) ::
      b64EncodeBytes rest
  | [b1, b2] =>
    [b64CharOfVal (b1 / 4), b64CharOfVal (b1 % 4 * 16 + b2 / 16),
     b64CharOfVal (b2 % 16 * 4), '=']
  | [b1] => [b64CharOfVal (b1 / 4), b64CharOfVal (b1 % 4 * 16), '=', '=']
  | [] => []

/-- Regroup base64 sextets into bytes, dropping trailing partial bits
(Node Buffer semantics for base64 decoding). -/
def b64SextetsToBytes : List Nat → List Nat
  | a :: b :: c :: d :: rest =>
    (a * 4 + b / 16) :: (b % 16 * 16 + c / 4) :: (c % 4 * 64 + d) ::
      b64SextetsToBytes rest
  | [a, b, c] => [a * 4 + b / 16, b % 16 * 16 + c / 4]
  | [a, b] => [a * 4 + b / 16]
  | _ => []

/-- UTF-8 encoding of one code point. -/
def utf8EncodeChar (c : Char) : List Nat :=
  let n := c.toNat
  if n < 128 then [n]
  else if n < 2048 then [192 + n / 64, 128 + n % 64]
  else if n < 65536 then [224 + n / 4096, 128 + n / 64 % 64, 128 + n % 64]
  else [240 + n / 262144, 128 + n / 4096 % 64, 128 + n / 64 % 64, 128 + n % 64]

/-- UTF-8 encoding of a string as a byte list. -/
def utf8EncodeString (s : String) : List Nat :=
  s.toList.foldr (fun c acc => utf8EncodeChar c ++ acc) []

/-- UTF-8 decoding with replacement of truncated sequences (Node Buffer
toString semantics, simplified). -/
def utf8DecodeBytes : List Nat → List Char
  | [] => []
  | b :: rest =>
    if b < 128 then Char.ofNat b :: utf8DecodeBytes rest
    else if b < 192 then Char.ofNat 65533 :: utf8DecodeBytes rest
    else if b < 224 then
      match rest with
      | b2 :: rest2 =>
        Char.ofNat ((b - 192) * 64 + (b2 - 128)) :: utf8DecodeBytes rest2
      | [] => [Char.ofNat 65533]
    else if b < 240 then
      match rest with
      | b2 :: b3 :: rest3 =>
        Char.ofNat ((b - 224) * 4096 + (b2 - 128) * 64 + (b3 - 128)) ::
          utf8DecodeBytes rest3
      | _ => [Char.ofNat 65533]
    else
      match rest with
      | b2 :: b3 :: b4 :: rest4 =>
        Char.ofNat
          ((b - 240) * 262144 + (b2 - 128) * 4096 + (b3 - 128) * 64 +
            (b4 - 128)) :: utf8DecodeBytes rest4
      | _ => [Char.ofNat 65533]

/-- Buffer.from(input, base64).toString(utf8). -/
def b64DecodeString (s : String) : String :=
  String.mk (utf8DecodeBytes (b64SextetsToBytes (s.toList.filterMap b64ValOfChar)))

/-- Buffer.from(input, utf8).toString(base64). -/
def b64EncodeString (s : String) : String :=
  String.mk (b64EncodeBytes (utf8EncodeString s))

/-- decodeContinuationHeader: base64-decode when the header is present. -/
def decodeContinuationHeader : Option String → Option String
  | some s => some (b64DecodeString s)
  | none => none

/-- encodeContinuationHeader on a present key. -/
def encodeContinuationHeader (input : String) : String :=
  b64EncodeString input

/-! ### Paginated entity query engine -/

/-- QUERY_RESULT_MAX_NUM from utils/constants (the spec: library-wide
default page size, typically 1000). -/
def QUERY_RESULT_MAX_NUM : Nat := 1000

/-- The continuation predicate of queryTableEntities, applied to a record
with PartitionKey pk (possibly undefined, as the source defends against)
and RowKey rk, with the already-decoded continuation keys. -/
def continuationFilter (dnpk dnrk : Option String) (pk : Option String)
    (rk : String) : Bool :=
  if (match dnpk, pk with
      | some npk, some p => jsLt npk p
      | _, _ => false) then
    true
  else
    match dnrk with
    | some nrk => jsLe nrk rk && (pk == dnpk || pk == none)
    | none => true

/-- The sort comparator of queryTableEntities as a total preorder:
ascending by PartitionKey, then by RowKey. -/
def entLeB (a b : Entity) : Bool :=
  jsLt a.PartitionKey b.PartitionKey ||
    (a.PartitionKey == b.PartitionKey && jsLe a.RowKey b.RowKey)

/-- Propositional form of the entity sort order. -/
def entLe (a b : Entity) : Prop := entLeB a b = true

instance : DecidableRel entLe := fun a b => instDecidableEqBool (entLeB a b) true

theorem jsLt_asymm {a b : String} (h : jsLt a b = true) : jsLt b a = false :=
  jsLtChars_asymm a.toList b.toList h

theorem jsLt_conn {a b : String} (h1 : jsLt a b = false)
    (h2 : jsLt b a = false) : a = b := by
  have h3 := jsLtChars_conn a.toList b.toList h1 h2
  exact String.ext (by simpa [String.toList] using h3)

theorem jsLt_trans {a b c : String} (h1 : jsLt a b = true)
    (h2 : jsLt b c = true) : jsLt a c = true :=
  jsLtChars_trans a.toList b.toList c.toList h1 h2

theorem jsLt_self_false (a : String) : jsLt a a = false := by
  cases h : jsLt a a
  · rfl
  · have hf := jsLt_asymm h
    rw [h] at hf
    exact hf

instance : IsTotal Entity entLe where
  total := by
    intro a b
    unfold entLe entLeB
    by_cases h1 : jsLt a.PartitionKey b.PartitionKey = true
    · left
      simp [h1]
    · by_cases h2 : jsLt b.PartitionKey a.PartitionKey = true
      · right
        simp [h2]
      · have hpk : a.PartitionKey = b.PartitionKey :=
          jsLt_conn (Bool.not_eq_true _ ▸ h1) (Bool.not_eq_true _ ▸ h2)
        by_cases h3 : jsLt b.RowKey a.RowKey = true
        · right
          have h4 : jsLt a.RowKey b.RowKey = false := jsLt_asymm h3
          simp [hpk, jsLe, h4]
        · left
          have h4 : jsLt b.RowKey a.RowKey = false := Bool.not_eq_true _ ▸ h3
          simp [hpk, jsLe, h4]

instance : IsTrans Entity entLe where
  trans := by
    intro a b c hab hbc
    unfold entLe entLeB at *
    simp only [Bool.or_eq_true, Bool.and_eq_true, beq_iff_eq] at hab hbc ⊢
    rcases hab with hab | ⟨hab1, hab2⟩
    · rcases hbc with hbc | ⟨hbc1, hbc2⟩
      · exact Or.inl (jsLt_trans hab hbc)
      · rw [← hbc1]
        exact Or.inl hab
    · rcases hbc with hbc | ⟨hbc1, hbc2⟩
      · rw [hab1]
        exact Or.inl hbc
      · refine Or.inr ⟨hab1.trans hbc1, ?_⟩
        simp only [jsLe, Bool.not_eq_true'] at hab2 hbc2 ⊢
        cases h : jsLt c.RowKey a.RowKey
        · rfl
        · by_cases h2 : jsLt a.RowKey b.RowKey = true
          · rw [jsLt_trans h h2] at hbc2
            exact hbc2
          · have heq : a.RowKey = b.RowKey :=
              jsLt_conn (Bool.not_eq_true _ ▸ h2) hab2
            rw [heq] at h
            rw [h] at hbc2
            exact hbc2

/-- queryOptions.top with the falsy default QUERY_RESULT_MAX_NUM. -/
def maxResultsOf (top : Option Nat) : Nat :=
  match top with
  | none => QUERY_RESULT_MAX_NUM
  | some 0 => QUERY_RESULT_MAX_NUM
  | some t => t

/-- The chain where(queryWhere).where(continuation).sort(cmp) of
queryTableEntities: filtered matches sorted ascending by
(PartitionKey, RowKey). -/
def querySortedMatches (entities : List Entity) (queryWhere : Entity → Bool)
    (nextPartitionKey nextRowKey : Option String) : List Entity :=
  List.insertionSort entLe
    ((entities.filter queryWhere).filter
      (fun e => continuationFilter (decodeContinuationHeader nextPartitionKey)
        (decodeContinuationHeader nextRowKey) (some e.PartitionKey) e.RowKey))

/-- queryTableEntities over the rows of the entity collection: apply the
compiled filter, apply the continuation predicate on the decoded keys, sort
by (PartitionKey, RowKey), take top + 1 records (top falsy defaults to
QUERY_RESULT_MAX_NUM), and on overflow pop the tail and return its keys
base64-encoded. -/
def queryTableEntities (entities : List Entity) (queryWhere : Entity → Bool)
    (top : Option Nat) (nextPartitionKey nextRowKey : Option String) :
    List Entity × Option String × Option String :=
  let sorted := querySortedMatches entities queryWhere nextPartitionKey nextRowKey
  let result := sorted.take (maxResultsOf top + 1)
  if result.length > maxResultsOf top then
    match result.getLast? with
    | some tail =>
      (result.dropLast, some (encodeContinuationHeader tail.PartitionKey),
        some (encodeContinuationHeader tail.RowKey))
    | none => (result, none, none)
  else
    (result, none, none)

/-! ### OData filter tokenizer (tokenizeQuery) -/

/-- The backtick-escaping preprocessing step of tokenizeQuery. -/
def escapeBackticks : List Char → List Char
  | [] => []
  | c :: rest =>
    if c = btick then '\\' :: btick :: escapeBackticks rest
    else c :: escapeBackticks rest

/-- Collapse every doubled single quote to one (the global replace applied
to an extracted string token). -/
def collapseQuotes : List Char → List Char
  | [] => []
  | [c] => [c]
  | c1 :: c2 :: rest =>
    if c1 = squote ∧ c2 = squote then squote :: collapseQuotes rest
    else c1 :: collapseQuotes (c2 :: rest)

/-- Split a collapsed string token at its first single quote: the leading
type prefix and the remainder. none when no quote occurs (indexOf -1). -/
def typePrefAndBody : List Char → List Char × Option (List Char)
  | [] => ([], none)
  | c :: rest =>
    if c = squote then ([], some rest)
    else
      let p := typePrefAndBody rest
      (c :: p.1, p.2)

/-- Processing of a just-closed string token: collapse doubled quotes,
split off the leading type prefix, wrap the body in backticks, and drop
the prefix entirely when it is the word guid. -/
def processStringToken (raw : List Char) : String :=
  let token := collapseQuotes raw
  match typePrefAndBody token with
  | (typePref, some body) =>
    let bt := btickS ++ String.mk body ++ btickS
    if String.mk typePref = "guid" then bt else String.mk typePref ++ bt
  | (_, none) => btickS ++ String.mk (token.drop 1) ++ btickS

/-- The fixed keyword table of the tokenizer. -/
def convertToken (t : String) : String :=
  if t = "TableName" then "name"
  else if t = "eq" then "==="
  else if t = "gt" then ">"
  else if t = "ge" then ">="
  else if t = "lt" then "<"
  else if t = "le" then "<="
  else if t = "ne" then "!=="
  else if t = "and" then "&&"
  else if t = "or" then "||"
  else if t = "not" then "!"
  else t

/-- appendToken: emit the pending span, as a processed string token or
through the keyword table; an empty span emits nothing. -/
def mkToken (cur : List Char) (inString : Bool) : Option String :=
  if cur.isEmpty then none
  else if inString then some (processStringToken cur)
  else some (convertToken (String.mk cur))

/-- The tokenizer scan. State: remaining input, the inString flag, the
pending span since the last token break, and the emitted tokens. The
parenthesis branch of the source (conditional break, index juggling)
reduces to: flush the pending span, then emit the parenthesis, since a
non-empty pending span always ends in a non-space character. -/
def tokenizeAux : List Char → Bool → List Char → List String → List String
  | [], inString, cur, acc => acc ++ (mkToken cur inString).toList
  | [c], true, cur, acc =>
    if c = squote then tokenizeAux [] false [] (acc ++ (mkToken cur true).toList)
    else tokenizeAux [] true (cur ++ [c]) acc
  | c :: c2 :: rest2, true, cur, acc =>
    if c = squote then
      if c2 = squote then tokenizeAux rest2 true (cur ++ [c, c2]) acc
      else tokenizeAux (c2 :: rest2) false [] (acc ++ (mkToken cur true).toList)
    else tokenizeAux (c2 :: rest2) true (cur ++ [c]) acc
  | c :: rest, false, cur, acc =>
    if c = '(' ∨ c = ')' then
      tokenizeAux rest false []
        (acc ++ (mkToken cur false).toList ++ [String.mk [c]])
    else if c.isWhitespace then
      tokenizeAux rest false [] (acc ++ (mkToken cur false).toList)
    else if c = squote then
      tokenizeAux rest true (cur ++ [c]) acc
    else
      tokenizeAux rest false (cur ++ [c]) acc
termination_by l _ _ _ => l.length
decreasing_by all_goals simp_wf <;> omega

/-- tokenizeQuery: escape backticks, then scan. -/
def tokenizeQuery (originalQuery : String) : List String :=
  tokenizeAux (escapeBackticks originalQuery.toList) false [] []

/-! ### OData filter rewriter (transformQuery) -/

/-- JS word character, for the word-boundary regexes. -/
def wordChar (c : Char) : Bool := c.isAlphanum || c = '_'

/-- Word boundary before a position, given the preceding character. -/
def boundaryPrev : Option Char → Bool
  | none => true
  | some p => !wordChar p

/-- Word boundary after a consumed word character, given the rest. -/
def boundaryNext : List Char → Bool
  | [] => true
  | c2 :: _ => !wordChar c2

/-- Test of the number regex: some digit occurs at a word boundary. -/
def hasDigitBoundary : Option Char → List Char → Bool
  | _, [] => false
  | prev, c :: rest =>
    (c.isDigit && boundaryPrev prev) || hasDigitBoundary (some c) rest

/-- token.match of the leading-digit regex, as a Bool. -/
def hasDigitMatch (t : String) : Bool := hasDigitBoundary none t.toList

/-- Maximal digit run at the head of a character list. -/
def takeDigitRun : List Char → List Char × List Char
  | [] => ([], [])
  | c :: rest =>
    if c.isDigit then
      let p := takeDigitRun rest
      (c :: p.1, p.2)
    else ([], c :: rest)

theorem takeDigitRun_snd_length_le : ∀ l : List Char,
    (takeDigitRun l).2.length ≤ l.length
  | [] => Nat.le_refl _
  | c :: rest => by
    simp only [takeDigitRun]
    by_cases h : c.isDigit
    · simp only [h, if_true]
      exact Nat.le_succ_of_le (takeDigitRun_snd_length_le rest)
    · simp [h]

/-- Count the matches of the long-int word regex (digits then the letter L
between word boundaries, global flag): at a boundary position, a maximal
digit run followed by L and a boundary matches; scanning resumes after a
match. -/
def countLongIntAux : Option Char → List Char → Nat
  | _, [] => 0
  | prev, c :: rest =>
    if boundaryPrev prev then
      match h : (takeDigitRun (c :: rest)).2 with
      | l2 :: r2 =>
        if l2 = 'L' && boundaryNext r2 then
          1 + countLongIntAux (some 'L') r2
        else countLongIntAux (some c) rest
      | [] => countLongIntAux (some c) rest
    else countLongIntAux (some c) rest
termination_by _ l => l.length
decreasing_by
  all_goals simp_wf
  all_goals try omega
  have hle := takeDigitRun_snd_length_le (c :: rest)
  rw [h] at hle
  simp only [List.length_cons] at hle ⊢
  omega

/-- Number of long-int regex matches in a token. -/
def countLongInt (t : String) : Nat := countLongIntAux none t.toList

/-- The replace that strips every letter L standing at a word boundary. -/
def removeLBound : List Char → List Char
  | [] => []
  | c :: rest =>
    if c = 'L' && boundaryNext rest then removeLBound rest
    else c :: removeLBound rest

/-- The replace that strips every occurrence of the word datetime standing
between word boundaries. -/
def removeWordDTAux : Option Char → List Char → List Char
  | _, [] => []
  | prev, c :: rest =>
    if c = 'd' ∧ rest.take 7 = ['a', 't', 'e', 't', 'i', 'm', 'e'] ∧
        boundaryPrev prev = true ∧ boundaryNext (rest.drop 7) = true then
      removeWordDTAux (some 'e') (rest.drop 7)
    else c :: removeWordDTAux (some c) rest
termination_by _ l => l.length
decreasing_by
  all_goals simp_wf
  all_goals omega

/-- JS String startsWith. -/
def jsStartsWith (s pre : String) : Bool := pre.toList.isPrefixOf s.toList

/-- The comparison operators recognised by the rewriter. -/
def comparisonOps : List String := ["===", ">", ">=", "<", "<=", "!=="]

/-- All operator-like tokens excluded from identifier treatment. -/
def operatorLikeTokens : List String :=
  ["===", ">", ">=", "<", "<=", "!==", "&&", "||", "!", "(", ")"]

/-- A token is treated as an identifier when it is neither number-like,
boolean, backtick string, nor operator-like. -/
def isIdentifierToken (t : String) : Bool :=
  !hasDigitMatch t && !(t == "true") && !(t == "false") &&
    !(t.toList.contains btick) && !(operatorLikeTokens.contains t)

/-- System-property lookup (the Map of transformQuery). -/
def lookupSys (sys : List (String × String)) (t : String) : Option String :=
  (sys.find? (fun p => p.1 = t)).map (fun p => p.2)

/-- The rewriting loop of transformQuery. The full token list is kept for
the two-token lookahead; the loop walks the remaining suffix with the
current index, the operator flag of the previous non-empty token, and the
accumulated output. -/
def transformAux (sys : List (String × String)) (allowCustom : Bool)
    (tokens : List String) :
    List String → Nat → Bool → String → Except String String
  | [], _, _, acc => .ok (acc ++ ")")
  | t :: rest, counter, isOp, acc =>
    if t = "" then transformAux sys allowCustom tokens rest (counter + 1) isOp acc
    else
      let previousIsOp := isOp
      let isOp2 := comparisonOps.contains t
      if isIdentifierToken t then
        match lookupSys sys t with
        | some mapped =>
          transformAux sys allowCustom tokens rest (counter + 1) isOp2
            (acc ++ "item." ++ mapped ++ " ")
        | none =>
          if allowCustom then
            if counter + 2 ≤ tokens.length - 1 ∧
                jsStartsWith (tokens.getD (counter + 2) "") "datetime" then
              transformAux sys allowCustom tokens rest (counter + 1) isOp2
                (acc ++ "new Date(item.properties." ++ t ++ ").getTime() ")
            else
              transformAux sys allowCustom tokens rest (counter + 1) isOp2
                (acc ++ "item.properties." ++ t ++ " ")
          else .error "Custom properties are not supported on this query type."
      else
        if previousIsOp ∧ countLongInt t = 1 then
          transformAux sys allowCustom tokens rest (counter + 1) isOp2
            (acc ++ squoteS ++ String.mk (removeLBound t.toList) ++ squoteS ++ " ")
        else if previousIsOp ∧ jsStartsWith t "datetime" then
          transformAux sys allowCustom tokens rest (counter + 1) isOp2
            (acc ++ "new Date(" ++ String.mk (removeWordDTAux none t.toList) ++
              ").getTime()" ++ " ")
        else if previousIsOp ∧ (jsStartsWith t "X" ∨ jsStartsWith t "binary") then
          .error "Binary filter is not supported yet."
        else
          transformAux sys allowCustom tokens rest (counter + 1) isOp2
            (acc ++ t ++ " ")

/-- transformQuery on an already-tokenized stream. -/
def transformQueryTokens (sys : List (String × String)) (allowCustom : Bool)
    (tokens : List String) : Except String String :=
  transformAux sys allowCustom tokens tokens 0 false "return ( "

/-- transformQuery: tokenize then rewrite. -/
def transformQuery (query : String) (sys : List (String × String))
    (allowCustom : Bool) : Except String String :=
  transformQueryTokens sys allowCustom (tokenizeQuery query)

/-- System properties of entity queries. -/
def entitySystemProperties : List (String × String) :=
  [("PartitionKey", "PartitionKey"), ("RowKey", "RowKey")]

/-- System properties of table-name queries. -/
def tableSystemProperties : List (String × String) := [("name", "table")]

/-- transformEntityQuery: entity mode, custom properties allowed. -/
def transformEntityQuery (query : String) : Except String String :=
  transformQuery query entitySystemProperties true

/-- transformTableQuery: table-name mode, custom properties forbidden. -/
def transformTableQuery (query : String) : Except String String :=
  transformQuery query tableSystemProperties false

/-- generateQueryEntityWhereFunction, modelled at the level of the
generated predicate source text: an absent filter compiles to the
accept-all predicate. -/
def generateQueryEntityWhereFunction : Option String → Except String String
  | none => .ok "return true"
  | some q => transformEntityQuery q

/-- The try/catch of queryTableEntities around filter compilation:
a compilation failure surfaces as query-condition-invalid. -/
def compileEntityFilterSurface (filter : Option String) :
    Except StorageErr String :=
  match generateQueryEntityWhereFunction filter with
  | .ok body => .ok body
  | .error _ => .error .queryConditionInvalid

/-! ### Helper lemmas on the colon encoding -/

theorem replaceFirstColon_length (l : List Char) :
    (replaceFirstColon l).length = l.length ∨
      (replaceFirstColon l).length = l.length + 2 := by
  induction l with
  | nil => left; rfl
  | cons c rest ih =>
    simp only [replaceFirstColon]
    by_cases h : c = ':'
    · right
      simp [h]
    · simp only [h, if_false, List.length_cons]
      rcases ih with ih | ih
      · left
        simp [ih]
      · right
        simp [ih]

theorem urlencodeColons_eq_star {m : String} (h : urlencodeColons m = "*") :
    m = "*" := by
  have hd : replaceFirstColon (replaceFirstColon m.toList) = ['*'] := by
    have h2 := congrArg String.data h
    simpa [urlencodeColons, String.toList] using h2
  have h1 := replaceFirstColon_length m.toList
  have h2 := replaceFirstColon_length (replaceFirstColon m.toList)
  have hl : (replaceFirstColon (replaceFirstColon m.toList)).length = 1 := by
    rw [hd]
    rfl
  have hlen : m.toList.length = 1 := by omega
  obtain ⟨c, hc⟩ := List.length_eq_one.mp hlen
  by_cases hcc : c = ':'
  · rw [hc, hcc] at hd
    simp [replaceFirstColon] at hd
  · rw [hc] at hd
    simp only [replaceFirstColon, hcc, if_false] at hd
    cases hd with
    | refl => exact String.ext (by simpa [String.toList] using hc)

/-! ### Example fixtures used by witnesses -/

/-- An example timestamp formatter standing in for getTimestampString. -/
def exFmt : Nat → String := fun n => "TS" ++ Nat.repr n

/-- A stored example entity whose eTag contains two colons. -/
def exEnt : Entity :=
  { PartitionKey := "p", RowKey := "r"
    properties := [("Timestamp", "T0"), ("Timestamp" ++ ODATA_TYPE, "Edm.DateTime"), ("a", "1")]
    lastModifiedTime := 0, eTag := "e:1:2" }

/-- The example entity as a stored row. -/
def exRow : Row := { id := 0, ent := exEnt }

/-- A collection holding the single example row. -/
def exColl : Coll := { rows := [exRow], nextId := 1 }

/-- A store holding the example collection, with empty undo logs. -/
def exStore : StoreState := { coll := exColl, rollbackLog := [], deleteLog := [] }

/-- An incoming example entity targeting the same primary key. -/
def exNew : Entity :=
  { PartitionKey := "p", RowKey := "r", properties := [("a", "2")]
    lastModifiedTime := 7, eTag := "e:9" }

instance {ε α : Type} [DecidableEq ε] [DecidableEq α] :
    DecidableEq (Except ε α) := fun a b =>
  match a, b with
  | .ok x, .ok y =>
    if h : x = y then .isTrue (by rw [h]) else .isFalse (by simp [h])
  | .error x, .error y =>
    if h : x = y then .isTrue (by rw [h]) else .isFalse (by simp [h])
  | .ok _, .error _ => .isFalse (by simp)
  | .error _, .ok _ => .isFalse (by simp)

theorem exceptIsOk_ok {ε α : Type} (a : α) :
    (Except.ok a : Except ε α).isOk = true := rfl

theorem exceptIsOk_error {ε α : Type} (e : ε) :
    (Except.error e : Except ε α).isOk = false := rfl

/-! ### C1 -/

/-- C1: for updateTableEntity and mergeTableEntity on an existing entity
with ifMatch neither undefined nor star, the operation succeeds exactly
when the stored eTag and the incoming ifMatch agree after each has its
first two colons replaced by %3A; on disagreement the outcome is
precondition-failed, and an undefined or star ifMatch bypasses the check. -/
theorem updateMerge_etag_check (fmt : Nat → String) (s : StoreState)
    (e : Entity) (m : String) (bid : Option String) (doc : Row)
    (hfind : s.coll.findOne e.PartitionKey e.RowKey = some doc)
    (hm : m ≠ "*") :
    ((updateTableEntity fmt s e (some m) bid).2.isOk = true ↔
      urlencodeColons doc.ent.eTag = urlencodeColons m) ∧
    ((mergeTableEntity s e (some m) bid).2.isOk = true ↔
      urlencodeColons doc.ent.eTag = urlencodeColons m) ∧
    (urlencodeColons doc.ent.eTag ≠ urlencodeColons m →
      (updateTableEntity fmt s e (some m) bid).2 = .error .preconditionFailed ∧
      (mergeTableEntity s e (some m) bid).2 = .error .preconditionFailed) ∧
    (∀ im, im = none ∨ im = some "*" →
      (updateTableEntity fmt s e im bid).2.isOk = true ∧
      (mergeTableEntity s e im bid).2.isOk = true) := by
  have hstar : ¬ (some (urlencodeColons m) = some "*") := by
    intro hcontra
    exact hm (urlencodeColons_eq_star (Option.some.inj hcontra))
  constructor
  · simp only [updateTableEntity, hfind, Option.map_some]
    by_cases heq : urlencodeColons doc.ent.eTag = urlencodeColons m
    · simp [heq, exceptIsOk_ok, exceptIsOk_error]
    · have : ¬ (some (urlencodeColons doc.ent.eTag) = some (urlencodeColons m)) := by
        simpa using heq
      simp [hstar, this, heq, exceptIsOk_ok, exceptIsOk_error]
  constructor
  · simp only [mergeTableEntity, hfind, Option.map_some]
    by_cases heq : urlencodeColons doc.ent.eTag = urlencodeColons m
    · simp [heq, exceptIsOk_ok, exceptIsOk_error]
    · have : ¬ (some (urlencodeColons doc.ent.eTag) = some (urlencodeColons m)) := by
        simpa using heq
      simp [hstar, this, heq, exceptIsOk_ok, exceptIsOk_error]
  constructor
  · intro hne
    have hne2 : ¬ (some (urlencodeColons doc.ent.eTag) = some (urlencodeColons m)) := by
      simpa using hne
    constructor
    · simp [updateTableEntity, hfind, hstar, hne2]
    · simp [mergeTableEntity, hfind, hstar, hne2]
  · intro im him
    rcases him with him | him <;> subst him
    · constructor
      · simp [updateTableEntity, hfind, exceptIsOk_ok]
      · simp [mergeTableEntity, hfind, exceptIsOk_ok]
    · constructor
      · simp [updateTableEntity, hfind, exceptIsOk_ok, urlencodeColons, replaceFirstColon]
      · simp [mergeTableEntity, hfind, exceptIsOk_ok, urlencodeColons, replaceFirstColon]

/-- Witness for C1: a stored eTag with colons matches the client-side
URL-encoded form of itself, and fails against a different eTag. -/
theorem updateMerge_etag_check_witness :
    (updateTableEntity exFmt exStore exNew (some "e%3A1%3A2") none).2.isOk = true ∧
    (mergeTableEntity exStore exNew (some "zz") none).2 =
      .error .preconditionFailed := by
  have h1 := updateMerge_etag_check exFmt exStore exNew "e%3A1%3A2" none exRow
    (by decide) (by decide)
  have h2 := updateMerge_etag_check exFmt exStore exNew "zz" none exRow
    (by decide) (by decide)
  exact ⟨h1.1.mpr (by decide), (h2.2.2.1 (by decide)).2⟩

/-! ### C10 -/

/-- C10: when the target entity exists and batchId is not the empty string
(in particular when it is undefined), updateTableEntity and
mergeTableEntity append the pre-image to the rollback log before the ETag
is validated, so the append survives a precondition-failed outcome. -/
theorem updateMerge_preimage_logged (fmt : Nat → String) (s : StoreState)
    (e : Entity) (im : Option String) (bid : Option String) (doc : Row)
    (hfind : s.coll.findOne e.PartitionKey e.RowKey = some doc)
    (hbid : bid ≠ some "") :
    (updateTableEntity fmt s e im bid).1.rollbackLog = s.rollbackLog ++ [doc] ∧
    (mergeTableEntity s e im bid).1.rollbackLog = s.rollbackLog ++ [doc] := by
  constructor
  · simp only [updateTableEntity, hfind]
    split
    · simp [hbid]
    · simp [hbid]
  · simp only [mergeTableEntity, hfind]
    split
    · simp [hbid]
    · simp [hbid]

/-- Witness for C10: a non-batch update (batchId undefined) that fails the
ETag check still appends the pre-image. -/
theorem updateMerge_preimage_logged_witness :
    (updateTableEntity exFmt exStore exNew (some "zz") none).1.rollbackLog =
      [exRow] ∧
    (updateTableEntity exFmt exStore exNew (some "zz") none).2 =
      .error .preconditionFailed := by
  have h := updateMerge_preimage_logged exFmt exStore exNew (some "zz") none
    exRow (by decide) (by decide)
  exact ⟨by simpa using h.1, by decide⟩

/-! ### C6 -/

/-- C6: deleteTableEntity throws properties-need-value on a missing key,
entity-not-found on a missing entity, precondition-failed when the raw
(not colon-encoded) supplied etag is neither star nor the stored eTag, and
otherwise removes the entity. -/
theorem deleteTableEntity_spec (s : StoreState) (pk rk : Option String)
    (etag batchId : String) :
    (pk = none ∨ rk = none →
      (deleteTableEntity s pk rk etag batchId).2 = .error .propertiesNeedValue) ∧
    (∀ p r, pk = some p → rk = some r → s.coll.findOne p r = none →
      (deleteTableEntity s pk rk etag batchId).2 = .error .entityNotFound) ∧
    (∀ p r doc, pk = some p → rk = some r → s.coll.findOne p r = some doc →
      ((etag ≠ "*" ∧ doc.ent.eTag ≠ etag) →
        deleteTableEntity s pk rk etag batchId = (s, .error .preconditionFailed)) ∧
      ((etag = "*" ∨ doc.ent.eTag = etag) →
        (deleteTableEntity s pk rk etag batchId).2 = .ok () ∧
        doc ∉ (deleteTableEntity s pk rk etag batchId).1.coll.rows ∧
        ∀ r2 ∈ s.coll.rows, r2.id ≠ doc.id →
          r2 ∈ (deleteTableEntity s pk rk etag batchId).1.coll.rows)) := by
  refine ⟨?_, ?_, ?_⟩
  · intro h
    rcases h with h | h <;> subst h
    · simp [deleteTableEntity]
    · cases pk <;> simp [deleteTableEntity]
  · intro p r hp hr hfind
    subst hp
    subst hr
    simp [deleteTableEntity, hfind]
  · intro p r doc hp hr hfind
    subst hp
    subst hr
    constructor
    · intro hfail
      simp [deleteTableEntity, hfind, hfail]
    · intro hok
      have hcond : ¬ (etag ≠ "*" ∧ doc.ent.eTag ≠ etag) := by
        rcases hok with hok | hok <;> simp [hok]
      refine ⟨by simp [deleteTableEntity, hfind, hcond], ?_, ?_⟩
      · simp only [deleteTableEntity, hfind, hcond, if_false]
        split <;>
          simp [Coll.removeRow, List.mem_filter]
      · intro r2 hr2 hid
        simp only [deleteTableEntity, hfind, hcond, if_false]
        split <;>
          simp [Coll.removeRow, List.mem_filter, hr2, hid]

/-- Witness for C6: deleting the example entity with a star etag succeeds
and removes the row; a missing row key yields properties-need-value. -/
theorem deleteTableEntity_spec_witness :
    (deleteTableEntity exStore (some "p") (some "r") "*" "").2 = .ok () ∧
    exRow ∉ (deleteTableEntity exStore (some "p") (some "r") "*" "").1.coll.rows ∧
    (deleteTableEntity exStore (some "p") none "*" "").2 =
      .error .propertiesNeedValue := by
  have h := (deleteTableEntity_spec exStore (some "p") (some "r") "*" "").2.2
    "p" "r" exRow rfl rfl (by decide)
  have h2 := (h.2 (Or.inl rfl))
  have h3 := (deleteTableEntity_spec exStore (some "p") none "*" "").1
    (Or.inr rfl)
  exact ⟨h2.1, h2.2.1, h3⟩

/-! ### C2 -/

/-- C2 (code divergence): a successful mergeTableEntity keeps the stored
Timestamp property instead of recomputing it from the supplied
lastModifiedTime: on the example store, the merged record still carries
the stored value T0 although the formatter applied to the incoming
lastModifiedTime yields a different string, and the merge result equals
the stored properties overlaid with the incoming non-tag keys. -/
theorem mergeTableEntity_timestamp_not_recomputed :
    ∃ merged, (mergeTableEntity exStore exNew none (some "")).2 = .ok merged ∧
      objGet merged.properties "Timestamp" = some "T0" ∧
      exFmt exNew.lastModifiedTime = "TS7" ∧
      objGet merged.properties "Timestamp" ≠ some (exFmt exNew.lastModifiedTime) ∧
      objGet merged.properties "a" = some "2" := by
  refine ⟨{ PartitionKey := "p", RowKey := "r"
            properties := [("Timestamp", "T0"),
              ("Timestamp" ++ ODATA_TYPE, "Edm.DateTime"), ("a", "2")]
            lastModifiedTime := 7, eTag := "e:9" }, ?_, ?_, ?_, ?_, ?_⟩
  · decide
  · decide
  · decide
  · decide
  · decide

/-! ### C4: batch rollback -/

/-- Keys are pairwise distinct across the rows of a collection (the
primary-key uniqueness invariant of an entity collection). -/
def KeysDistinct (c : Coll) : Prop :=
  c.rows.Pairwise
    (fun a b => ¬(a.ent.PartitionKey = b.ent.PartitionKey ∧
      a.ent.RowKey = b.ent.RowKey))

/-- Row ids are pairwise distinct (Loki assigns fresh ids on insert). -/
def IdsDistinct (c : Coll) : Prop :=
  c.rows.Pairwise (fun a b => a.id ≠ b.id)

theorem find?_filter_ne_id {l : List Row} {p : Row → Bool} {i : Nat}
    (h : ∀ x ∈ l, x.id = i → p x = false) :
    (l.filter (fun x => x.id ≠ i)).find? p = l.find? p := by
  induction l with
  | nil => rfl
  | cons y l ih =>
    have ih2 := ih (fun x hx hxi => h x (List.mem_cons_of_mem y hx) hxi)
    by_cases hy : y.id = i
    · have hpy : p y = false := h y (List.mem_cons_self y l) hy
      simp [List.filter_cons, List.find?_cons, hy, hpy]
      simpa using ih2
    · cases hpy : p y
      · simp [List.filter_cons, List.find?_cons, hy, hpy]
        simpa using ih2
      · simp [List.filter_cons, List.find?_cons, hy, hpy]

theorem cleanCopy_eq (e : Entity) : cleanCopy e = e := rfl

theorem restorePreImage_lookup (c : Coll) (row : Row)
    (hk : KeysDistinct c) (hi : IdsDistinct c) :
    ((restorePreImage c row).findOne row.ent.PartitionKey
        row.ent.RowKey).map Row.ent = some row.ent ∧
    ∀ pk rk, ¬(pk = row.ent.PartitionKey ∧ rk = row.ent.RowKey) →
      ((restorePreImage c row).findOne pk rk).map Row.ent =
        (c.findOne pk rk).map Row.ent := by
  have hksym : Symmetric (fun a b : Row =>
      ¬(a.ent.PartitionKey = b.ent.PartitionKey ∧
        a.ent.RowKey = b.ent.RowKey)) := by
    intro a b hab hcontra
    exact hab ⟨hcontra.1.symm, hcontra.2.symm⟩
  have hisym : Symmetric (fun a b : Row => a.id ≠ b.id) := by
    intro a b hab hcontra
    exact hab hcontra.symm
  cases hfound : c.findOne row.ent.PartitionKey row.ent.RowKey with
  | some d =>
    have hfound2 : c.rows.find?
        (fun r => r.ent.PartitionKey = row.ent.PartitionKey &&
          r.ent.RowKey = row.ent.RowKey) = some d := hfound
    have hdmem : d ∈ c.rows := List.mem_of_find?_eq_some hfound2
    have hdkey : d.ent.PartitionKey = row.ent.PartitionKey ∧
        d.ent.RowKey = row.ent.RowKey := by
      have := List.find?_some hfound2
      simpa using this
    have hrows : (restorePreImage c row).rows =
        (c.rows.filter (fun x => x.id ≠ d.id)) ++
          [{ id := c.nextId, ent := cleanCopy row.ent }] := by
      simp [restorePreImage, hfound, Coll.removeRow, Coll.insertRow]
    constructor
    · show ((restorePreImage c row).rows.find? _).map Row.ent = _
      rw [hrows, List.find?_append]
      have hnone : (c.rows.filter (fun x => x.id ≠ d.id)).find?
          (fun r => r.ent.PartitionKey = row.ent.PartitionKey &&
            r.ent.RowKey = row.ent.RowKey) = none := by
        rw [List.find?_eq_none]
        intro x hx hpx
        have hx2 := List.mem_filter.mp hx
        have hxkey : x.ent.PartitionKey = row.ent.PartitionKey ∧
            x.ent.RowKey = row.ent.RowKey := by simpa using hpx
        by_cases hxd : x = d
        · subst hxd
          simp at hx2
        · have := (hk.forall hksym) hx2.1 hdmem hxd
          exact this ⟨hxkey.1.trans hdkey.1.symm, hxkey.2.trans hdkey.2.symm⟩
      rw [hnone]
      simp [cleanCopy_eq]
    · intro pk rk hne
      show ((restorePreImage c row).rows.find? _).map Row.ent = _
      rw [hrows, List.find?_append]
      have hnew : (List.find?
          (fun (r : Row) => r.ent.PartitionKey = pk && r.ent.RowKey = rk)
          [{ id := c.nextId, ent := cleanCopy row.ent }]) = none := by
        rw [List.find?_eq_none]
        intro x hx hpx
        simp at hx
        subst hx
        rw [cleanCopy_eq] at hpx
        have : pk = row.ent.PartitionKey ∧ rk = row.ent.RowKey := by
          simp at hpx
          exact ⟨hpx.1.symm, hpx.2.symm⟩
        exact hne this
      rw [hnew, Option.or_none]
      rw [find?_filter_ne_id]
      · rfl
      · intro x hx hxi
        by_cases hxd : x = d
        · subst hxd
          cases hpx : (x.ent.PartitionKey = pk && x.ent.RowKey = rk : Bool)
          · rfl
          · exfalso
            have hx3 : pk = x.ent.PartitionKey ∧ rk = x.ent.RowKey := by
              simp at hpx
              exact ⟨hpx.1.symm, hpx.2.symm⟩
            exact hne ⟨hx3.1.trans hdkey.1, hx3.2.trans hdkey.2⟩
        · have := (hi.forall hisym) hx hdmem hxd
          exact absurd hxi this
  | none =>
    have hfound2 : c.rows.find?
        (fun r => r.ent.PartitionKey = row.ent.PartitionKey &&
          r.ent.RowKey = row.ent.RowKey) = none := hfound
    have hrows : (restorePreImage c row).rows =
        c.rows ++ [{ id := c.nextId, ent := cleanCopy row.ent }] := by
      simp [restorePreImage, hfound, Coll.insertRow]
    constructor
    · show ((restorePreImage c row).rows.find? _).map Row.ent = _
      rw [hrows, List.find?_append, hfound2]
      simp [cleanCopy_eq]
    · intro pk rk hne
      show ((restorePreImage c row).rows.find? _).map Row.ent = _
      rw [hrows, List.find?_append]
      have hnew : (List.find?
          (fun (r : Row) => r.ent.PartitionKey = pk && r.ent.RowKey = rk)
          [{ id := c.nextId, ent := cleanCopy row.ent }]) = none := by
        rw [List.find?_eq_none]
        intro x hx hpx
        simp at hx
        subst hx
        rw [cleanCopy_eq] at hpx
        have : pk = row.ent.PartitionKey ∧ rk = row.ent.RowKey := by
          simp at hpx
          exact ⟨hpx.1.symm, hpx.2.symm⟩
        exact hne this
      rw [hnew, Option.or_none]
      rfl

theorem removeFold_subset (log : List Row) (c : Coll) (x : Row)
    (hx : x ∈ (log.foldl (fun (c : Coll) (r : Row) => c.removeRow r) c).rows) : x ∈ c.rows := by
  induction log generalizing c with
  | nil => exact hx
  | cons a log ih =>
    have := ih (c.removeRow a) hx
    simp only [Coll.removeRow] at this
    exact (List.mem_filter.mp this).1

theorem removeFold_removes (log : List Row) :
    ∀ (c : Coll) (r : Row), r ∈ log →
      ∀ x ∈ (log.foldl (fun (c : Coll) (r : Row) => c.removeRow r) c).rows, x.id ≠ r.id := by
  induction log with
  | nil =>
    intro c r hr
    simp at hr
  | cons a log ih =>
    intro c r hr x hx
    rcases List.mem_cons.mp hr with hr | hr
    · subst hr
      have hsub := removeFold_subset log (c.removeRow r) x hx
      simp only [Coll.removeRow] at hsub
      have := (List.mem_filter.mp hsub).2
      simpa using this
    · exact ih (c.removeRow a) r hr x hx

/-- C4: endBatchTransaction with succeeded clears the logs and leaves the
collection alone; with failure it replays every rollback pre-image
(removing any current record with the pre-image key and inserting a clean
copy, so that afterwards the lookup at that key yields the pre-image and
every other key is untouched), removes every logged inserted row, and
clears both logs unconditionally. -/
theorem endBatchTransaction_spec :
    (∀ s, endBatchTransaction s true =
      { coll := s.coll, rollbackLog := [], deleteLog := [] }) ∧
    (∀ s, (endBatchTransaction s false).rollbackLog = [] ∧
      (endBatchTransaction s false).deleteLog = [] ∧
      (endBatchTransaction s false).coll =
        s.deleteLog.foldl (fun c r => c.removeRow r)
          (s.rollbackLog.foldl restorePreImage s.coll)) ∧
    (∀ c row, KeysDistinct c → IdsDistinct c →
      ((restorePreImage c row).findOne row.ent.PartitionKey
          row.ent.RowKey).map Row.ent = some row.ent ∧
      ∀ pk rk, ¬(pk = row.ent.PartitionKey ∧ rk = row.ent.RowKey) →
        ((restorePreImage c row).findOne pk rk).map Row.ent =
          (c.findOne pk rk).map Row.ent) ∧
    (∀ s r, r ∈ s.deleteLog →
      ∀ x ∈ (endBatchTransaction s false).coll.rows, x.id ≠ r.id) := by
  refine ⟨fun s => rfl, fun s => ⟨rfl, rfl, rfl⟩, restorePreImage_lookup, ?_⟩
  intro s r hr x hx
  simp only [endBatchTransaction, Bool.false_eq_true, if_false] at hx
  exact removeFold_removes s.deleteLog _ r hr x hx

/-- A second stored example entity. -/
def exEnt2 : Entity :=
  { PartitionKey := "p", RowKey := "r2", properties := [("b", "9")]
    lastModifiedTime := 3, eTag := "t2" }

/-- A second stored row used by the batch examples. -/
def exRow2 : Row := { id := 1, ent := exEnt2 }

/-- A store mid-batch: exRow was removed (pre-image logged), exRow2 was
inserted during the batch. -/
def exStoreBatch : StoreState :=
  { coll := { rows := [exRow2], nextId := 2 }
    rollbackLog := [exRow], deleteLog := [exRow2] }

/-- Witness for C4 at the example mid-batch store. -/
theorem endBatchTransaction_spec_witness :
    endBatchTransaction exStoreBatch true =
      { coll := exStoreBatch.coll, rollbackLog := [], deleteLog := [] } ∧
    ((restorePreImage exColl exRow).findOne "p" "r").map Row.ent =
      some exEnt ∧
    ∀ x ∈ (endBatchTransaction exStoreBatch false).coll.rows, x.id ≠ 1 := by
  refine ⟨endBatchTransaction_spec.1 exStoreBatch, ?_, ?_⟩
  · exact (endBatchTransaction_spec.2.2.1 exColl exRow
      (by simp [KeysDistinct, exColl]) (by simp [IdsDistinct, exColl])).1
  · intro x hx
    exact endBatchTransaction_spec.2.2.2 exStoreBatch exRow2
      (List.mem_cons_self _ _) x hx

/-! ### C3: single batch in flight -/

/-- The operations of a store history, as submitted by handlers. -/
inductive TOp where
  | insertE (e : Entity) (batchId : Option String)
  | updateE (e : Entity) (ifMatch : Option String) (batchId : Option String)
  | mergeE (e : Entity) (ifMatch : Option String) (batchId : Option String)
  | deleteE (pk rk : Option String) (etag : String) (batchId : String)
  | beginB
  | endB (succeeded : Bool)

/-- Apply one operation to the store (errors leave whatever state the
operation had already produced, as in the source). -/
def applyOp (fmt : Nat → String) (s : StoreState) : TOp → StoreState
  | .insertE e bid => (insertTableEntity fmt s e bid).1
  | .updateE e im bid => (updateTableEntity fmt s e im bid).1
  | .mergeE e im bid => (mergeTableEntity s e im bid).1
  | .deleteE pk rk etag bid => (deleteTableEntity s pk rk etag bid).1
  | .beginB => s
  | .endB succ => endBatchTransaction s succ

/-- Run a history front to back. -/
def runOps (fmt : Nat → String) (s : StoreState) (ops : List TOp) : StoreState :=
  ops.foldl (applyOp fmt) s

/-- A mutation submitted outside any batch, carrying the empty batch id. -/
def PlainOp : TOp → Prop
  | .insertE _ bid => bid = some ""
  | .updateE _ _ bid => bid = some ""
  | .mergeE _ _ bid => bid = some ""
  | .deleteE _ _ _ bid => bid = ""
  | .beginB => False
  | .endB _ => False

/-- A mutation step allowed inside a batch body. -/
def MutOp : TOp → Prop
  | .beginB => False
  | .endB _ => False
  | _ => True

/-- Histories in which every mutation outside a batch passes the empty
batch id and every batch is a begin/end bracket around mutations. -/
inductive SafeTrace : List TOp → Prop
  | nil : SafeTrace []
  | plain {op : TOp} {t : List TOp} :
      PlainOp op → SafeTrace t → SafeTrace (op :: t)
  | batch {body : List TOp} {succ : Bool} {t : List TOp} :
      (∀ op ∈ body, MutOp op) → SafeTrace t →
      SafeTrace (TOp.beginB :: (body ++ TOp.endB succ :: t))

theorem plainOp_preserves_logs (fmt : Nat → String) (s : StoreState)
    (op : TOp) (h : PlainOp op) :
    (applyOp fmt s op).rollbackLog = s.rollbackLog ∧
    (applyOp fmt s op).deleteLog = s.deleteLog := by
  cases op with
  | insertE e bid =>
    have hb : bid = some "" := h
    subst hb
    simp only [applyOp, insertTableEntity]
    split <;> simp
  | updateE e im bid =>
    have hb : bid = some "" := h
    subst hb
    simp only [applyOp, updateTableEntity]
    split
    · exact ⟨rfl, rfl⟩
    · split <;> simp
  | mergeE e im bid =>
    have hb : bid = some "" := h
    subst hb
    simp only [applyOp, mergeTableEntity]
    split
    · exact ⟨rfl, rfl⟩
    · split <;> simp
  | deleteE pk rk etag bid =>
    have hb : bid = "" := h
    subst hb
    simp only [applyOp, deleteTableEntity]
    split
    · split
      · exact ⟨rfl, rfl⟩
      · split <;> simp
    · exact ⟨rfl, rfl⟩
  | beginB => exact absurd h (by simp [PlainOp])
  | endB succ => exact absurd h (by simp [PlainOp])

/-- C3 (amended): beginBatchTransaction fails with transaction-overlap
exactly when one of the undo logs is non-empty and otherwise changes
nothing; and provided every mutation outside a batch passes the empty
batch id, both undo logs are empty whenever no batch is active, so at
most one batch is ever in flight. -/
theorem beginBatch_overlap_and_logs_invariant :
    (∀ (fmt : Nat → String) (s : StoreState),
      (beginBatchTransaction s = .error .transactionOverlap ↔
        ¬(s.rollbackLog = [] ∧ s.deleteLog = [])) ∧
      (beginBatchTransaction s = .ok () ↔
        s.rollbackLog = [] ∧ s.deleteLog = []) ∧
      applyOp fmt s .beginB = s) ∧
    (∀ (fmt : Nat → String) (tr : List TOp), SafeTrace tr →
      ∀ s : StoreState, s.rollbackLog = [] → s.deleteLog = [] →
        (runOps fmt s tr).rollbackLog = [] ∧
        (runOps fmt s tr).deleteLog = []) := by
  constructor
  · intro fmt s
    have hchar : (s.rollbackLog.length > 0 ∨ s.deleteLog.length > 0) ↔
        ¬(s.rollbackLog = [] ∧ s.deleteLog = []) := by
      rw [not_and_or]
      constructor
      · rintro (h | h)
        · exact Or.inl (List.length_pos.mp h)
        · exact Or.inr (List.length_pos.mp h)
      · rintro (h | h)
        · exact Or.inl (List.length_pos.mpr h)
        · exact Or.inr (List.length_pos.mpr h)
    refine ⟨?_, ?_, rfl⟩
    · by_cases hc : s.rollbackLog.length > 0 ∨ s.deleteLog.length > 0
      · simp only [beginBatchTransaction, if_pos hc]
        simpa using hchar.mp hc
      · have hboth : s.rollbackLog = [] ∧ s.deleteLog = [] := by
          by_contra hcon
          exact hc (hchar.mpr hcon)
        simp only [beginBatchTransaction, if_neg hc]
        constructor
        · intro h
          exact absurd h (by simp)
        · intro h
          exact absurd hboth h
    · by_cases hc : s.rollbackLog.length > 0 ∨ s.deleteLog.length > 0
      · simp only [beginBatchTransaction, if_pos hc]
        constructor
        · intro h
          exact absurd h (by simp)
        · intro h
          exact absurd (hchar.mp hc) (by simp [h.1, h.2])
      · have hboth : s.rollbackLog = [] ∧ s.deleteLog = [] := by
          by_contra hcon
          exact hc (hchar.mpr hcon)
        simp only [beginBatchTransaction, if_neg hc]
        constructor
        · intro _
          exact hboth
        · intro _
          trivial
  · intro fmt tr htr
    induction htr with
    | nil => intro s h1 h2; exact ⟨h1, h2⟩
    | plain hop ht ih =>
      intro s h1 h2
      rename_i op t
      have hpres := plainOp_preserves_logs fmt s op hop
      have : runOps fmt s (op :: t) = runOps fmt (applyOp fmt s op) t := rfl
      rw [this]
      exact ih (applyOp fmt s op) (hpres.1.trans h1) (hpres.2.trans h2)
    | batch hbody ht ih =>
      intro s h1 h2
      rename_i body succ t
      have hsplit : runOps fmt s (TOp.beginB :: (body ++ TOp.endB succ :: t)) =
          runOps fmt
            (endBatchTransaction (runOps fmt s body) succ) t := by
        simp only [runOps, List.foldl_cons, List.foldl_append, List.foldl]
        rfl
      rw [hsplit]
      exact ih (endBatchTransaction (runOps fmt s body) succ) rfl rfl

/-- Counterexample for C3 as stated: a single non-batch update submitted
with an undefined batch id (no batch was ever begun, so none is active)
leaves the rollback log non-empty, and a subsequent beginBatchTransaction
fails with transaction-overlap. -/
theorem nonbatch_update_leaves_rollback_log :
    (updateTableEntity exFmt exStore exNew none none).1.rollbackLog =
      [exRow] ∧
    (updateTableEntity exFmt exStore exNew none none).2.isOk = true ∧
    beginBatchTransaction (updateTableEntity exFmt exStore exNew none none).1 =
      .error .transactionOverlap := by
  decide

/-- Witness for C3 (amended) on a one-operation history. -/
theorem beginBatch_overlap_and_logs_invariant_witness :
    (runOps exFmt exStore [TOp.updateE exNew none (some "")]).rollbackLog = [] ∧
    (runOps exFmt exStore [TOp.updateE exNew none (some "")]).deleteLog = [] := by
  exact beginBatch_overlap_and_logs_invariant.2 exFmt
    [TOp.updateE exNew none (some "")]
    (SafeTrace.plain rfl SafeTrace.nil) exStore rfl rfl

/-! ### C5: pagination and the continuation filter -/

/-- The continuation-admission predicate in the words of the
specification: a record passes iff its PartitionKey exceeds the decoded
next-partition key, or its RowKey is at least the decoded next-row key
while the PartitionKey equals the decoded next-partition key (or is
undefined); every record is admitted when neither key is set. JS
comparisons against an absent value are false. -/
def continuationFilterClaim (dnpk dnrk : Option String) (pk : Option String)
    (rk : String) : Bool :=
  if dnpk = none ∧ dnrk = none then true
  else
    (match dnpk, pk with
     | some npk, some p => jsLt npk p
     | _, _ => false) ||
    ((match dnrk with
      | some nrk => jsLe nrk rk
      | none => false) &&
     (pk == dnpk || pk == none))

/-- The continuation predicate the source actually computes: when the
decoded next-row key is absent every record is admitted; otherwise the
claimed disjunction applies. -/
def continuationFilterAmended (dnpk dnrk : Option String) (pk : Option String)
    (rk : String) : Bool :=
  match dnrk with
  | none => true
  | some nrk =>
    (match dnpk, pk with
     | some npk, some p => jsLt npk p
     | _, _ => false) ||
    (jsLe nrk rk && (pk == dnpk || pk == none))

theorem take_succ_dropLast {α : Type} (l : List α) (m : Nat)
    (h : m < l.length) : (l.take (m + 1)).dropLast = l.take m := by
  rw [List.dropLast_eq_take, List.length_take, List.take_take]
  congr 1
  have h1 : min (m + 1) l.length = m + 1 := by omega
  rw [h1]
  omega

theorem getLast?_take_succ {α : Type} (l : List α) (m : Nat)
    (h : m < l.length) : (l.take (m + 1)).getLast? = l[m]? := by
  rw [List.getLast?_eq_getElem?, List.length_take]
  have h1 : min (m + 1) l.length = m + 1 := by omega
  rw [h1]
  simp only [Nat.add_sub_cancel, List.getElem?_take]
  rw [if_pos (by omega)]

/-- An example entity for the continuation counterexample. -/
def entA : Entity :=
  { PartitionKey := "a", RowKey := "r", properties := []
    lastModifiedTime := 0, eTag := "e" }

/-- Counterexample for C5 as stated: with a decoded next-partition key b
present and no next-row key, the source admits a record with PartitionKey
a (it falls through to the final return true), while the claimed iff
rejects it; end to end, the query returns the record although the claimed
filter would drop it ("Yg==" is the Base64 encoding of b). -/
theorem continuationFilter_claim_mismatch :
    continuationFilter (some "b") none (some "a") "r" = true ∧
    continuationFilterClaim (some "b") none (some "a") "r" = false ∧
    decodeContinuationHeader (some "Yg==") = some "b" ∧
    (queryTableEntities [entA] (fun _ => true) none (some "Yg==") none).1 =
      [entA] := by
  decide

/-- C5 (amended): the continuation filter equals the claimed disjunction
except that an absent decoded next-row key admits every record (in
particular, admit-all when neither key is set); the query then sorts the
admitted records ascending by (PartitionKey, RowKey), returns at most top
of them (top defaulting to QUERY_RESULT_MAX_NUM), and exactly when more
match it pops the tail record and returns its keys Base64-encoded as the
continuation. -/
theorem queryTableEntities_pagination :
    (∀ dnpk dnrk pk rk,
      continuationFilter dnpk dnrk pk rk =
        continuationFilterAmended dnpk dnrk pk rk) ∧
    (∀ pk rk, continuationFilter none none pk rk = true) ∧
    (∀ entities (queryWhere : Entity → Bool) top npk nrk,
      (queryTableEntities entities queryWhere top npk nrk).1 =
        (querySortedMatches entities queryWhere npk nrk).take
          (maxResultsOf top) ∧
      (queryTableEntities entities queryWhere top npk nrk).1.length ≤
        maxResultsOf top ∧
      List.Sorted entLe (queryTableEntities entities queryWhere top npk nrk).1 ∧
      (queryTableEntities entities queryWhere top npk nrk).2.1 =
        (if maxResultsOf top < (querySortedMatches entities queryWhere npk nrk).length then
          ((querySortedMatches entities queryWhere npk nrk)[maxResultsOf top]?).map
            (fun t => encodeContinuationHeader t.PartitionKey)
         else none) ∧
      (queryTableEntities entities queryWhere top npk nrk).2.2 =
        (if maxResultsOf top < (querySortedMatches entities queryWhere npk nrk).length then
          ((querySortedMatches entities queryWhere npk nrk)[maxResultsOf top]?).map
            (fun t => encodeContinuationHeader t.RowKey)
         else none)) := by
  refine ⟨?_, ?_, ?_⟩
  · intro dnpk dnrk pk rk
    cases dnrk with
    | none =>
      cases dnpk with
      | none => rfl
      | some npk =>
        cases pk with
        | none => rfl
        | some p =>
          simp only [continuationFilter, continuationFilterAmended]
          cases h : jsLt npk p <;> simp [h]
    | some nrk =>
      cases dnpk with
      | none =>
        cases pk with
        | none => rfl
        | some p => rfl
      | some npk =>
        cases pk with
        | none => rfl
        | some p =>
          simp only [continuationFilter, continuationFilterAmended]
          cases h : jsLt npk p <;> simp [h]
  · intro pk rk
    cases pk <;> rfl
  · intro entities queryWhere top npk nrk
    have hsorted : List.Sorted entLe
        (querySortedMatches entities queryWhere npk nrk) := by
      exact List.sorted_insertionSort entLe _
    by_cases h : maxResultsOf top <
        (querySortedMatches entities queryWhere npk nrk).length
    · have hlen : ((querySortedMatches entities queryWhere npk nrk).take
          (maxResultsOf top + 1)).length = maxResultsOf top + 1 := by
        rw [List.length_take]
        omega
      have hcond : ((querySortedMatches entities queryWhere npk nrk).take
          (maxResultsOf top + 1)).length > maxResultsOf top := by omega
      have hget := getLast?_take_succ
        (querySortedMatches entities queryWhere npk nrk) (maxResultsOf top) h
      cases hm : (querySortedMatches entities queryWhere npk nrk)[maxResultsOf top]? with
      | none =>
        exfalso
        rw [List.getElem?_eq_none_iff] at hm
        omega
      | some tail =>
        have hq : queryTableEntities entities queryWhere top npk nrk =
            (((querySortedMatches entities queryWhere npk nrk).take
                (maxResultsOf top + 1)).dropLast,
              some (encodeContinuationHeader tail.PartitionKey),
              some (encodeContinuationHeader tail.RowKey)) := by
          simp only [queryTableEntities]
          rw [if_pos hcond]
          rw [hget, hm]
        rw [hq]
        refine ⟨?_, ?_, ?_, ?_, ?_⟩
        · exact take_succ_dropLast _ _ h
        · rw [take_succ_dropLast _ _ h, List.length_take]
          omega
        · rw [take_succ_dropLast _ _ h]
          exact (hsorted.sublist (List.take_sublist _ _))
        · rw [if_pos h]
          rfl
        · rw [if_pos h]
          rfl
    · have hle : (querySortedMatches entities queryWhere npk nrk).length ≤
          maxResultsOf top := by omega
      have htake : (querySortedMatches entities queryWhere npk nrk).take
          (maxResultsOf top + 1) =
          querySortedMatches entities queryWhere npk nrk :=
        List.take_of_length_le (by omega)
      have hcond : ¬ (((querySortedMatches entities queryWhere npk nrk).take
          (maxResultsOf top + 1)).length > maxResultsOf top) := by
        rw [htake]
        omega
      have hq : queryTableEntities entities queryWhere top npk nrk =
          ((querySortedMatches entities queryWhere npk nrk).take
              (maxResultsOf top + 1), none, none) := by
        simp only [queryTableEntities]
        rw [if_neg hcond]
      rw [hq, htake]
      refine ⟨?_, ?_, ?_, ?_, ?_⟩
      · rw [List.take_of_length_le hle]
      · exact hle
      · exact hsorted
      · rw [if_neg h]
      · rw [if_neg h]

/-! ### Tokenizer lemmas -/

theorem toList_app (a b : String) : (a ++ b).toList = a.toList ++ b.toList :=
  String.data_append a b

theorem isPrefixOf_append_self : ∀ (l t : List Char),
    l.isPrefixOf (l ++ t) = true
  | [], _ => by simp [List.isPrefixOf]
  | c :: l, t => by
    simp only [List.cons_append, List.isPrefixOf_cons₂_self]
    exact isPrefixOf_append_self l t

theorem jsStartsWith_of_append (a b : String) :
    jsStartsWith (a ++ b) a = true := by
  simp only [jsStartsWith, toList_app]
  exact isPrefixOf_append_self a.toList b.toList

/-- A character the scanner accumulates into a pending plain token. -/
def plainChar (c : Char) : Bool :=
  !(c == '(') && !(c == ')') && !c.isWhitespace && !(c == squote)

theorem scanPlain : ∀ (pre : List Char), (∀ c ∈ pre, plainChar c = true) →
    ∀ (l cur : List Char) (acc : List String),
    tokenizeAux (pre ++ l) false cur acc =
      tokenizeAux l false (cur ++ pre) acc := by
  intro pre
  induction pre with
  | nil =>
    intro _ l cur acc
    simp
  | cons c pre ih =>
    intro h l cur acc
    have hc := h c (List.mem_cons_self c pre)
    simp only [plainChar, Bool.and_eq_true, Bool.not_eq_true',
      beq_eq_false_iff_ne, ne_eq] at hc
    obtain ⟨⟨⟨h1, h2⟩, h3⟩, h4⟩ := hc
    have hpar : ¬(c = '(' ∨ c = ')') := by
      rintro (hp | hp)
      · exact h1 hp
      · exact h2 hp
    show tokenizeAux (c :: (pre ++ l)) false cur acc = _
    simp only [tokenizeAux]
    rw [if_neg hpar, if_neg (by simp [h3]), if_neg h4]
    rw [ih (fun x hx => h x (List.mem_cons_of_mem c hx)) l (cur ++ [c]) acc]
    simp

theorem scanInString : ∀ (body : List Char), (∀ c ∈ body, c ≠ squote) →
    ∀ (l cur : List Char) (acc : List String),
    tokenizeAux (body ++ l) true cur acc =
      tokenizeAux l true (cur ++ body) acc := by
  intro body
  induction body with
  | nil =>
    intro _ l cur acc
    simp
  | cons c body ih =>
    intro h l cur acc
    have hc : c ≠ squote := h c (List.mem_cons_self c body)
    show tokenizeAux (c :: (body ++ l)) true cur acc = _
    cases hsplit : body ++ l with
    | nil =>
      have hb : body = [] := by
        cases body with
        | nil => rfl
        | cons x xs => simp at hsplit
      have hl : l = [] := by
        rw [hb] at hsplit
        simpa using hsplit
      subst hb
      subst hl
      simp only [tokenizeAux, if_neg hc, List.nil_append, List.append_nil]
    | cons c2 rest2 =>
      simp only [tokenizeAux]
      rw [if_neg hc]
      rw [← hsplit]
      rw [ih (fun x hx => h x (List.mem_cons_of_mem c hx)) l (cur ++ [c]) acc]
      simp

theorem collapse_nq : ∀ (l : List Char), (∀ c ∈ l, c ≠ squote) →
    collapseQuotes l = l := by
  intro l
  induction l with
  | nil => intro _; rfl
  | cons c rest ih =>
    intro h
    cases rest with
    | nil => rfl
    | cons c2 r =>
      have hc : c ≠ squote := h c (by simp)
      simp only [collapseQuotes]
      rw [if_neg (by rintro ⟨hh1, _⟩; exact hc hh1)]
      rw [ih (fun x hx => h x (by simp [hx]))]

theorem collapse_pre_quote : ∀ (pre body : List Char),
    (∀ c ∈ pre, c ≠ squote) → (∀ c ∈ body, c ≠ squote) →
    collapseQuotes (pre ++ squote :: body) = pre ++ squote :: body := by
  intro pre
  induction pre with
  | nil =>
    intro body _ hb
    cases body with
    | nil => rfl
    | cons b r =>
      simp only [List.nil_append, collapseQuotes]
      rw [if_neg (by rintro ⟨_, hh2⟩; exact hb b (by simp) hh2)]
      rw [collapse_nq (b :: r) hb]
  | cons c pre ih =>
    intro body hp hb
    have hc : c ≠ squote := hp c (by simp)
    obtain ⟨d, t, hdt⟩ : ∃ d t, pre ++ squote :: body = d :: t := by
      cases pre with
      | nil => exact ⟨squote, body, rfl⟩
      | cons x xs => exact ⟨x, xs ++ squote :: body, rfl⟩
    show collapseQuotes (c :: (pre ++ squote :: body)) = _
    rw [hdt]
    simp only [collapseQuotes]
    rw [if_neg (by rintro ⟨hh1, _⟩; exact hc hh1)]
    rw [← hdt]
    rw [ih body (fun x hx => hp x (by simp [hx])) hb]
    simp

theorem typePrefAndBody_app : ∀ (pre body : List Char),
    (∀ c ∈ pre, c ≠ squote) →
    typePrefAndBody (pre ++ squote :: body) = (pre, some body) := by
  intro pre
  induction pre with
  | nil =>
    intro body _
    simp [typePrefAndBody]
  | cons c pre ih =>
    intro body hp
    have hc : c ≠ squote := hp c (by simp)
    simp only [List.cons_append, typePrefAndBody, if_neg hc, List.append_eq]
    rw [ih body (fun x hx => hp x (by simp [hx]))]

theorem processStringToken_spec (pre body : List Char)
    (hp : ∀ c ∈ pre, c ≠ squote) (hb : ∀ c ∈ body, c ≠ squote) :
    processStringToken (pre ++ squote :: body) =
      if String.mk pre = "guid" then btickS ++ String.mk body ++ btickS
      else String.mk pre ++ (btickS ++ String.mk body ++ btickS) := by
  simp only [processStringToken]
  rw [collapse_pre_quote pre body hp hb]
  rw [typePrefAndBody_app pre body hp]

theorem escapeBackticks_id : ∀ (l : List Char), (∀ c ∈ l, c ≠ btick) →
    escapeBackticks l = l := by
  intro l
  induction l with
  | nil => intro _; rfl
  | cons c rest ih =>
    intro h
    simp only [escapeBackticks, if_neg (h c (by simp))]
    rw [ih (fun x hx => h x (by simp [hx]))]

theorem tokenize_string_literal (pre body : List Char)
    (hpre : ∀ c ∈ pre, plainChar c = true ∧ c ≠ btick)
    (hbody : ∀ c ∈ body, c ≠ squote ∧ c ≠ btick) :
    tokenizeQuery (String.mk (pre ++ squote :: (body ++ [squote]))) =
      [if String.mk pre = "guid" then btickS ++ String.mk body ++ btickS
       else String.mk pre ++ (btickS ++ String.mk body ++ btickS)] := by
  unfold tokenizeQuery
  have htl : (String.mk (pre ++ squote :: (body ++ [squote]))).toList =
      pre ++ squote :: (body ++ [squote]) := rfl
  rw [htl]
  rw [escapeBackticks_id _ ?hbt]
  case hbt =>
    intro c hcmem
    rcases List.mem_append.mp hcmem with hcm | hcm
    · exact (hpre c hcm).2
    · rcases List.mem_cons.mp hcm with hcm | hcm
      · subst hcm
        decide
      · rcases List.mem_append.mp hcm with hcm | hcm
        · exact (hbody c hcm).2
        · simp at hcm
          subst hcm
          decide
  rw [scanPlain pre (fun c hc => (hpre c hc).1) (squote :: (body ++ [squote]))
    [] []]
  simp only [tokenizeAux]
  rw [if_neg (by decide), if_neg (by decide), if_pos trivial]
  rw [scanInString body (fun c hc => (hbody c hc).1) [squote]
    ([] ++ pre ++ [squote]) []]
  simp only [tokenizeAux, if_pos rfl]
  have hcur : (([] ++ pre ++ [squote]) ++ body) = pre ++ squote :: body := by
    simp
  rw [hcur]
  have hne : (pre ++ squote :: body).isEmpty = false := by
    cases pre <;> simp [List.isEmpty]
  simp only [mkToken, hne, Bool.false_eq_true, if_false, if_pos rfl,
    Option.toList_some, List.nil_append]
  rw [processStringToken_spec pre body (fun c hc => ?hpq) (fun c hc => (hbody c hc).1)]
  case hpq =>
    have := (hpre c hc).1
    intro hceq
    rw [hceq] at this
    revert this
    decide
  simp [tokenizeAux, mkToken]

/-! ### Rewriter lemmas -/

theorem takeDigitRun_digits_notDigit : ∀ (ds : List Char) (c : Char)
    (rest : List Char), (∀ x ∈ ds, x.isDigit = true) → c.isDigit = false →
    takeDigitRun (ds ++ c :: rest) = (ds, c :: rest) := by
  intro ds
  induction ds with
  | nil =>
    intro c rest _ hc
    simp [takeDigitRun, hc]
  | cons d ds ih =>
    intro c rest h hc
    have hd : d.isDigit = true := h d (by simp)
    simp only [List.cons_append, takeDigitRun, hd, if_true, List.append_eq]
    rw [ih c rest (fun x hx => h x (by simp [hx])) hc]

theorem takeDigitRun_snd_mem : ∀ (l : List Char) (x : Char),
    x ∈ (takeDigitRun l).2 → x ∈ l := by
  intro l
  induction l with
  | nil =>
    intro x hx
    simpa [takeDigitRun] using hx
  | cons c rest ih =>
    intro x hx
    simp only [takeDigitRun] at hx
    by_cases hc : c.isDigit
    · simp only [hc, if_true] at hx
      exact List.mem_cons_of_mem c (ih x hx)
    · simp only [hc, if_false] at hx
      simpa using hx

theorem countLongIntAux_noL : ∀ (l : List Char) (prev : Option Char),
    'L' ∉ l → countLongIntAux prev l = 0 := by
  intro l
  induction l with
  | nil =>
    intro prev _
    simp [countLongIntAux]
  | cons c rest ih =>
    intro prev hL
    rw [countLongIntAux]
    split
    · split
      · rename_i l2 r2 htd
        have hl2 : l2 ∈ (takeDigitRun (c :: rest)).2 := by
          rw [htd]
          simp
        have hl2mem : l2 ∈ c :: rest := takeDigitRun_snd_mem _ _ hl2
        rw [if_neg]
        · exact ih (some c) (fun hmem => hL (List.mem_cons_of_mem c hmem))
        · intro hcontra
          simp only [Bool.and_eq_true, decide_eq_true_eq] at hcontra
          rw [hcontra.1] at hl2mem
          exact hL hl2mem
      · exact ih (some c) (fun hmem => hL (List.mem_cons_of_mem c hmem))
    · exact ih (some c) (fun hmem => hL (List.mem_cons_of_mem c hmem))

theorem countLongInt_digitsL (ds : List Char) (hne : ds ≠ [])
    (h : ∀ c ∈ ds, c.isDigit = true) :
    countLongIntAux none (ds ++ ['L']) = 1 := by
  cases ds with
  | nil => exact absurd rfl hne
  | cons d ds' =>
    have htd : (takeDigitRun (d :: (ds' ++ ['L']))).2 = ['L'] := by
      rw [show d :: (ds' ++ ['L']) = (d :: ds') ++ 'L' :: [] from rfl]
      rw [takeDigitRun_digits_notDigit (d :: ds') 'L' [] h (by decide)]
    rw [show (d :: ds') ++ ['L'] = d :: (ds' ++ ['L']) from rfl]
    rw [countLongIntAux]
    rw [if_pos (by simp [boundaryPrev])]
    rw [htd]
    simp [countLongIntAux, boundaryNext]

theorem removeLBound_digitsL (ds : List Char)
    (h : ∀ c ∈ ds, c.isDigit = true) :
    removeLBound (ds ++ ['L']) = ds := by
  induction ds with
  | nil => decide
  | cons d ds ih =>
    have hd : d.isDigit = true := h d (by simp)
    have hdL : ¬ (d = 'L' && boundaryNext (ds ++ ['L'])) = true := by
      intro hcontra
      simp only [Bool.and_eq_true, decide_eq_true_eq] at hcontra
      rw [hcontra.1] at hd
      exact absurd hd (by decide)
    rw [List.cons_append, removeLBound, if_neg hdL]
    rw [ih (fun x hx => h x (by simp [hx]))]

theorem removeWordDT_noD : ∀ (l : List Char) (prev : Option Char),
    'd' ∉ l → removeWordDTAux prev l = l := by
  intro l
  induction l with
  | nil =>
    intro prev _
    simp [removeWordDTAux]
  | cons c rest ih =>
    intro prev hd
    have hc : c ≠ 'd' := by
      intro hcontra
      exact hd (by simp [hcontra])
    rw [removeWordDTAux]
    rw [if_neg (by rintro ⟨hh1, _⟩; exact hc hh1)]
    rw [ih (some c) (fun hmem => hd (List.mem_cons_of_mem c hmem))]

theorem removeWordDT_strip (mid : List Char) (hb : boundaryNext mid = true)
    (hd : 'd' ∉ mid) :
    removeWordDTAux none
      ('d' :: 'a' :: 't' :: 'e' :: 't' :: 'i' :: 'm' :: 'e' :: mid) = mid := by
  rw [removeWordDTAux]
  rw [if_pos ?hcond]
  case hcond =>
    refine ⟨rfl, rfl, rfl, ?_⟩
    rw [show List.drop 7 ('a' :: 't' :: 'e' :: 't' :: 'i' :: 'm' :: 'e' :: mid)
      = mid from rfl]
    exact hb
  rw [show List.drop 7 ('a' :: 't' :: 'e' :: 't' :: 'i' :: 'm' :: 'e' :: mid)
    = mid from rfl]
  exact removeWordDT_noD mid (some 'e') hd

theorem ident_not_comparison {t : String} (h : isIdentifierToken t = true) :
    comparisonOps.contains t = false := by
  by_contra hc
  rw [Bool.not_eq_false] at hc
  have hmem : t ∈ comparisonOps := by
    simpa [List.elem_iff] using hc
  have hmem2 : t ∈ operatorLikeTokens := by
    simp only [comparisonOps, List.mem_cons, List.not_mem_nil, or_false] at hmem
    rcases hmem with h1 | h1 | h1 | h1 | h1 | h1 <;>
      simp [operatorLikeTokens, h1]
  have hcont : operatorLikeTokens.contains t = true := by
    simpa [List.elem_iff] using hmem2
  simp only [isIdentifierToken, Bool.and_eq_true, Bool.not_eq_true'] at h
  rw [hcont] at h
  simp at h

theorem mk_ne_empty (l : List Char) (h : l ≠ []) : String.mk l ≠ "" := by
  intro he
  have := congrArg String.data he
  simp at this
  exact h this

/-- Characters of a typical datetime literal body (digits and ISO
punctuation): enough to rule out the letters the rewriter treats
specially. -/
def dtBodyChar (c : Char) : Bool :=
  c.isDigit || c == '-' || c == ':' || c == '.' || c == 'T' || c == 'Z' ||
    c == '+'

theorem dtBodyChar_ne (c : Char) (h : dtBodyChar c = true) :
    c ≠ 'L' ∧ c ≠ 'd' ∧ c ≠ btick ∧ c ≠ squote := by
  simp only [dtBodyChar, Bool.or_eq_true, beq_iff_eq] at h
  refine ⟨?_, ?_, ?_, ?_⟩ <;> intro hc <;> subst hc <;> revert h <;> decide

/-- C7 (amended): a custom-property identifier (not a system property of
the entity query target) whose token two positions later starts with
datetime is emitted as a date-parse of the record property; the datetime
literal itself, directly following a comparison operator, is emitted as
the millisecond epoch of its backtick body, and standing alone (not after
a comparison operator) it passes through verbatim. -/
theorem transformQuery_datetime_emission (p body : String)
    (hp0 : p ≠ "") (hid : isIdentifierToken p = true)
    (hp1 : p ≠ "PartitionKey") (hp2 : p ≠ "RowKey")
    (hbody : ∀ c ∈ body.toList, dtBodyChar c = true) :
    transformQueryTokens entitySystemProperties true
      [p, "===", "datetime" ++ btickS ++ body ++ btickS] =
      .ok ("return ( " ++ "new Date(item.properties." ++ p ++ ").getTime() " ++
        "===" ++ " " ++ "new Date(" ++ (btickS ++ body ++ btickS) ++
        ").getTime()" ++ " " ++ ")") ∧
    transformQueryTokens entitySystemProperties true
      ["datetime" ++ btickS ++ body ++ btickS] =
      .ok ("return ( " ++ ("datetime" ++ btickS ++ body ++ btickS) ++ " " ++
        ")") := by
  have hlist : ("datetime" ++ btickS ++ body ++ btickS).toList =
      'd' :: 'a' :: 't' :: 'e' :: 't' :: 'i' :: 'm' :: 'e' ::
        (btick :: (body.toList ++ [btick])) := by
    simp [toList_app, btickS, List.append_assoc]
  have hstarts : jsStartsWith ("datetime" ++ btickS ++ body ++ btickS)
      "datetime" = true := by
    rw [show ("datetime" ++ btickS ++ body ++ btickS) =
      "datetime" ++ (btickS ++ body ++ btickS) by
        simp [String.append_assoc]]
    exact jsStartsWith_of_append _ _
  have hne : ("datetime" ++ btickS ++ body ++ btickS) ≠ "" := by
    intro he
    rw [he] at hlist
    exact absurd hlist (by simp)
  have hbt : btick ∈ ("datetime" ++ btickS ++ body ++ btickS).toList := by
    rw [hlist]
    simp
  have hident : isIdentifierToken ("datetime" ++ btickS ++ body ++ btickS) =
      false := by
    have hcont : (("datetime" ++ btickS ++ body ++ btickS).toList).contains
        btick = true := by
      simpa [List.elem_iff] using hbt
    unfold isIdentifierToken
    rw [hcont]
    simp
  have hnoL : 'L' ∉ ("datetime" ++ btickS ++ body ++ btickS).toList := by
    rw [hlist]
    intro hmem
    simp only [List.mem_cons, List.mem_append, List.mem_singleton] at hmem
    rcases hmem with h | h | h | h | h | h | h | h | h | h | h
    all_goals first
      | exact absurd h (by decide)
      | exact (dtBodyChar_ne 'L' (hbody 'L' h)).1 rfl
  have hcnt : countLongInt ("datetime" ++ btickS ++ body ++ btickS) = 0 :=
    countLongIntAux_noL _ none hnoL
  have hnoD : 'd' ∉ (btick :: (body.toList ++ [btick])) := by
    intro hmem
    simp only [List.mem_cons, List.mem_append, List.mem_singleton] at hmem
    rcases hmem with h | h | h
    · exact absurd h (by decide)
    · exact (dtBodyChar_ne 'd' (hbody 'd' h)).2.1 rfl
    · exact absurd h (by decide)
  have hstrip : String.mk (removeWordDTAux none
      ('d' :: 'a' :: 't' :: 'e' :: 't' :: 'i' :: 'm' :: 'e' ::
        (btickS.data ++ (body.data ++ btickS.data)))) =
      btickS ++ body ++ btickS := by
    rw [show (btickS.data ++ (body.data ++ btickS.data)) =
      btick :: (body.toList ++ [btick]) from rfl]
    rw [removeWordDT_strip (btick :: (body.toList ++ [btick])) rfl hnoD]
    rfl
  have hl1 : ¬ ("PartitionKey" = p) := fun h => hp1 h.symm
  have hl2 : ¬ ("RowKey" = p) := fun h => hp2 h.symm
  have hlook : lookupSys entitySystemProperties p = none := by
    simp [lookupSys, entitySystemProperties, List.find?, hl1, hl2]
  have hidop : isIdentifierToken "===" = false := by decide
  have hcop : comparisonOps.contains "===" = true := by decide
  have hpop : comparisonOps.contains p = false := ident_not_comparison hid
  constructor
  · unfold transformQueryTokens
    simp only [transformAux, hlook, hp0, hid, hident, hne, hcnt, hstarts,
      hidop, hcop, hpop, List.length_cons, List.length_nil, List.getD,
      List.getElem?_cons_zero, List.getElem?_cons_succ, if_true, if_false,
      Option.getD_some, Option.getD_none]
    simp only [show (0 + 2 : Nat) = 2 from rfl,
      show (0 + 1 + 1 + 1 : Nat) = 3 from rfl,
      show (0 + 1 + 1 + 2 : Nat) = 4 from rfl, List.get?]
    simp [hstarts, hcnt, hident, hidop, hcop, hpop, hne]
    rw [hstrip]
  · unfold transformQueryTokens
    simp only [transformAux]
    simp [hne, hident, hcnt]

unseal tokenizeAux countLongIntAux removeWordDTAux

/-- Counterexample for C7 as stated: the identifier token PartitionKey is
followed two positions later by a datetime literal, yet it is emitted as
the mapped system field item.PartitionKey, not as a date-parse of
properties[PartitionKey]. -/
theorem system_identifier_not_date_parsed :
    transformEntityQuery
      ("PartitionKey eq datetime" ++ squoteS ++ "2024-01-01" ++ squoteS) =
      .ok ("return ( item.PartitionKey === new Date(" ++ btickS ++
        "2024-01-01" ++ btickS ++ ").getTime() )") ∧
    ("return ( item.PartitionKey === new Date(" ++ btickS ++ "2024-01-01" ++
      btickS ++ ").getTime() )") ≠
    ("return ( new Date(item.properties.PartitionKey).getTime() === new Date(" ++
      btickS ++ "2024-01-01" ++ btickS ++ ").getTime() )") := by
  constructor
  · decide
  · decide

/-- Witness for C7 (amended) at a concrete custom property and date. -/
theorem transformQuery_datetime_emission_witness :
    transformQueryTokens entitySystemProperties true
      ["When", "===", "datetime" ++ btickS ++ "2024-01-01T00:00:00Z" ++ btickS] =
      .ok ("return ( " ++ "new Date(item.properties." ++ "When" ++
        ").getTime() " ++ "===" ++ " " ++ "new Date(" ++
        (btickS ++ "2024-01-01T00:00:00Z" ++ btickS) ++ ").getTime()" ++
        " " ++ ")") := by
  exact (transformQuery_datetime_emission "When" "2024-01-01T00:00:00Z"
    (by decide) (by decide) (by decide) (by decide) (by decide)).1

/-- C8: a guid-prefixed string literal is tokenized to the bare backtick
string (other type prefixes stay in front of the backtick string), and a
long-int token (digits followed by L) directly after a comparison operator
is emitted with the L dropped and the digits single-quoted, while the same
token not following a comparison operator passes through unchanged. -/
theorem guid_and_longint_tokens :
    (∀ (pre body : List Char),
      (∀ c ∈ pre, plainChar c = true ∧ c ≠ btick) →
      (∀ c ∈ body, c ≠ squote ∧ c ≠ btick) →
      tokenizeQuery (String.mk (pre ++ squote :: (body ++ [squote]))) =
        [if String.mk pre = "guid" then btickS ++ String.mk body ++ btickS
         else String.mk pre ++ (btickS ++ String.mk body ++ btickS)]) ∧
    (∀ ds : List Char, ds ≠ [] → (∀ c ∈ ds, c.isDigit = true) →
      transformQueryTokens entitySystemProperties true
        ["PartitionKey", "===", String.mk ds ++ "L"] =
        .ok ("return ( " ++ "item." ++ "PartitionKey" ++ " " ++ "===" ++
          " " ++ squoteS ++ String.mk ds ++ squoteS ++ " " ++ ")")) ∧
    (∀ ds : List Char, ds ≠ [] → (∀ c ∈ ds, c.isDigit = true) →
      transformQueryTokens entitySystemProperties true [String.mk ds ++ "L"] =
        .ok ("return ( " ++ (String.mk ds ++ "L") ++ " " ++ ")")) := by
  refine ⟨tokenize_string_literal, ?_, ?_⟩
  · intro ds hne h
    cases ds with
    | nil => exact absurd rfl hne
    | cons d ds' =>
      have hd : d.isDigit = true := h d (by simp)
      have htokne : String.mk (d :: ds') ++ "L" ≠ "" := by
        intro he
        have := congrArg String.data he
        simp at this
      have hdm : hasDigitMatch (String.mk (d :: ds') ++ "L") = true := by
        show hasDigitBoundary none ((d :: ds') ++ ['L']) = true
        simp [hasDigitBoundary, boundaryPrev, hd]
      have hidtok : isIdentifierToken (String.mk (d :: ds') ++ "L") = false := by
        unfold isIdentifierToken
        rw [hdm]
        simp
      have hcnt1 : countLongInt (String.mk (d :: ds') ++ "L") = 1 := by
        show countLongIntAux none ((d :: ds') ++ ['L']) = 1
        exact countLongInt_digitsL (d :: ds') (by simp) h
      have hrem : String.mk (removeLBound (d :: (ds' ++ ['L']))) =
          String.mk (d :: ds') := by
        rw [show d :: (ds' ++ ['L']) = (d :: ds') ++ ['L'] from rfl]
        rw [removeLBound_digitsL (d :: ds') h]
      have hidpk : isIdentifierToken "PartitionKey" = true := by decide
      have hlookpk : lookupSys entitySystemProperties "PartitionKey" =
          some "PartitionKey" := by decide
      have hidop : isIdentifierToken "===" = false := by decide
      have hcop : comparisonOps.contains "===" = true := by decide
      have hpkop : comparisonOps.contains "PartitionKey" = false := by decide
      unfold transformQueryTokens
      simp only [transformAux, hlookpk, hidpk, hidop, hcop, hpkop, hidtok,
        htokne, hcnt1, if_true, if_false]
      simp [htokne, hidtok, hcnt1]
      rw [hrem]
  · intro ds hne h
    cases ds with
    | nil => exact absurd rfl hne
    | cons d ds' =>
      have hd : d.isDigit = true := h d (by simp)
      have htokne : String.mk (d :: ds') ++ "L" ≠ "" := by
        intro he
        have := congrArg String.data he
        simp at this
      have hdm : hasDigitMatch (String.mk (d :: ds') ++ "L") = true := by
        show hasDigitBoundary none ((d :: ds') ++ ['L']) = true
        simp [hasDigitBoundary, boundaryPrev, hd]
      have hidtok : isIdentifierToken (String.mk (d :: ds') ++ "L") = false := by
        unfold isIdentifierToken
        rw [hdm]
        simp
      unfold transformQueryTokens
      simp only [transformAux, hidtok, htokne, if_true, if_false]
      simp [htokne, hidtok]

/-- Whether the token at position i directly follows a comparison
operator: the last non-empty token before position i is a comparator. -/
def opBefore (tokens : List String) (i : Nat) : Bool :=
  match ((tokens.take i).filter (fun t => t ≠ "")).getLast? with
  | some t => comparisonOps.contains t
  | none => false

/-- The two failure conditions of the rewriter, read off a token position:
a disallowed identifier (not a system property, custom properties
forbidden), or a literal that directly follows a comparison operator,
starts with X or binary, is not a single long-int match, and does not
start with datetime. -/
def tokenFailCond (sys : List (String × String)) (allowCustom : Bool)
    (tokens : List String) (i : Nat) : Bool :=
  let t := tokens.getD i ""
  if t = "" then false
  else if isIdentifierToken t then (lookupSys sys t).isNone && !allowCustom
  else
    opBefore tokens i && !(countLongInt t == 1) &&
      !(jsStartsWith t "datetime") &&
      (jsStartsWith t "X" || jsStartsWith t "binary")

theorem opBefore_succ (tokens : List String) (i : Nat) (t : String)
    (ht : tokens[i]? = some t) :
    opBefore tokens (i + 1) =
      (if t = "" then opBefore tokens i else comparisonOps.contains t) := by
  unfold opBefore
  rw [List.take_succ, ht]
  simp only [Option.toList_some, List.filter_append]
  by_cases h0 : t = ""
  · simp [h0]
  · simp only [List.filter_cons, List.filter_nil]
    rw [if_pos (by simp [h0])]
    rw [List.getLast?_append]
    simp [h0]

theorem transformAux_isOk (sys : List (String × String)) (ac : Bool)
    (tokens : List String) :
    ∀ (rem : List String) (i : Nat) (acc : String), rem = tokens.drop i →
    ((transformAux sys ac tokens rem i (opBefore tokens i) acc).isOk = true ↔
      ∀ j, i ≤ j → j < tokens.length →
        tokenFailCond sys ac tokens j = false) := by
  intro rem
  induction rem with
  | nil =>
    intro i acc hrem
    have hlen : tokens.length ≤ i := by
      have := hrem.symm
      rwa [List.drop_eq_nil_iff_le] at this
    constructor
    · intro _ j hij hjlen
      omega
    · intro _
      simp [transformAux, exceptIsOk_ok]
  | cons t rest ih =>
    intro i acc hrem
    have hti : tokens[i]? = some t := by
      have h1 := List.head?_drop tokens i
      rw [← hrem] at h1
      exact h1.symm
    have hilen : i < tokens.length := by
      by_contra hc
      push_neg at hc
      rw [List.getElem?_eq_none hc] at hti
      exact Option.noConfusion hti
    have hrest : rest = tokens.drop (i + 1) := by
      rw [← List.tail_drop, ← hrem]
      rfl
    have hop := opBefore_succ tokens i t hti
    have hsplit : (∀ j, i ≤ j → j < tokens.length →
        tokenFailCond sys ac tokens j = false) ↔
        (tokenFailCond sys ac tokens i = false ∧
          ∀ j, i + 1 ≤ j → j < tokens.length →
            tokenFailCond sys ac tokens j = false) := by
      constructor
      · intro h
        exact ⟨h i le_rfl hilen, fun j hj hjl => h j (by omega) hjl⟩
      · rintro ⟨hz, h⟩ j hij hjl
        rcases Nat.eq_or_lt_of_le hij with rfl | hlt
        · exact hz
        · exact h j hlt hjl
    rw [hsplit]
    by_cases h0 : t = ""
    · have hop0 : opBefore tokens (i + 1) = opBefore tokens i := by
        rw [hop, if_pos h0]
      have hfc : tokenFailCond sys ac tokens i = false := by
        simp [tokenFailCond, hti, h0]
      have hstep : transformAux sys ac tokens (t :: rest) i
          (opBefore tokens i) acc =
          transformAux sys ac tokens rest (i + 1) (opBefore tokens i) acc := by
        simp [transformAux, h0]
      have hih := ih (i + 1) acc hrest
      rw [hop0] at hih
      rw [hstep, hih]
      simp [hfc]
    · have hop2 : opBefore tokens (i + 1) = comparisonOps.contains t := by
        rw [hop, if_neg h0]
      by_cases hid : isIdentifierToken t = true
      · cases hlk : lookupSys sys t with
        | some mapped =>
          have hfc : tokenFailCond sys ac tokens i = false := by
            simp [tokenFailCond, hti, h0, hid, hlk]
          have hstep : transformAux sys ac tokens (t :: rest) i
              (opBefore tokens i) acc =
              transformAux sys ac tokens rest (i + 1) (comparisonOps.contains t)
                (acc ++ "item." ++ mapped ++ " ") := by
            simp [transformAux, h0, hid, hlk]
          have hih := ih (i + 1) (acc ++ "item." ++ mapped ++ " ") hrest
          rw [hop2] at hih
          rw [hstep, hih]
          simp [hfc]
        | none =>
          cases hac : ac with
          | true =>
            have hfc : tokenFailCond sys true tokens i = false := by
              simp [tokenFailCond, hti, h0, hid, hlk]
            by_cases hla : i + 2 ≤ tokens.length - 1 ∧
                jsStartsWith (tokens[i + 2]?.getD "") "datetime" = true
            · have hstep : transformAux sys true tokens (t :: rest) i
                  (opBefore tokens i) acc =
                  transformAux sys true tokens rest (i + 1)
                    (comparisonOps.contains t)
                    (acc ++ "new Date(item.properties." ++ t ++ ").getTime() ") := by
                simp [transformAux, h0, hid, hlk, hla.1, hla.2]
              have hih := ih (i + 1)
                (acc ++ "new Date(item.properties." ++ t ++ ").getTime() ") hrest
              rw [hac] at hih
              rw [hop2] at hih
              rw [hstep, hih]
              simp [hfc]
            · have hstep : transformAux sys true tokens (t :: rest) i
                  (opBefore tokens i) acc =
                  transformAux sys true tokens rest (i + 1)
                    (comparisonOps.contains t)
                    (acc ++ "item.properties." ++ t ++ " ") := by
                simp [transformAux, h0, hid, hlk]
                intro h1 h2
                exact absurd ⟨h1, h2⟩ hla
              have hih := ih (i + 1) (acc ++ "item.properties." ++ t ++ " ") hrest
              rw [hac] at hih
              rw [hop2] at hih
              rw [hstep, hih]
              simp [hfc]
          | false =>
            have hfc : tokenFailCond sys false tokens i = true := by
              simp [tokenFailCond, hti, h0, hid, hlk]
            have hstep : transformAux sys false tokens (t :: rest) i
                (opBefore tokens i) acc =
                .error "Custom properties are not supported on this query type." := by
              simp [transformAux, h0, hid, hlk]
            rw [hstep]
            simp [hfc, Except.isOk, Except.toBool]
      · cases hprev : opBefore tokens i with
        | true =>
          by_cases hcnt : countLongInt t = 1
          · have hfc : tokenFailCond sys ac tokens i = false := by
              simp [tokenFailCond, hti, h0, hid, hcnt]
            have hstep : transformAux sys ac tokens (t :: rest) i true acc =
                transformAux sys ac tokens rest (i + 1) (comparisonOps.contains t)
                  (acc ++ squoteS ++ String.mk (removeLBound t.toList) ++
                    squoteS ++ " ") := by
              simp [transformAux, h0, hid, hcnt]
            have hih := ih (i + 1)
              (acc ++ squoteS ++ String.mk (removeLBound t.toList) ++
                squoteS ++ " ") hrest
            rw [hop2] at hih
            rw [hstep, hih]
            simp [hfc]
          · by_cases hdt : jsStartsWith t "datetime" = true
            · have hfc : tokenFailCond sys ac tokens i = false := by
                simp [tokenFailCond, hti, h0, hid, hdt]
              have hstep : transformAux sys ac tokens (t :: rest) i true acc =
                  transformAux sys ac tokens rest (i + 1)
                    (comparisonOps.contains t)
                    (acc ++ "new Date(" ++
                      String.mk (removeWordDTAux none t.toList) ++
                      ").getTime()" ++ " ") := by
                simp [transformAux, h0, hid, hcnt, hdt]
              have hih := ih (i + 1)
                (acc ++ "new Date(" ++ String.mk (removeWordDTAux none t.toList) ++
                  ").getTime()" ++ " ") hrest
              rw [hop2] at hih
              rw [hstep, hih]
              simp [hfc]
            · by_cases hxb : jsStartsWith t "X" = true ∨ jsStartsWith t "binary" = true
              · have hfc : tokenFailCond sys ac tokens i = true := by
                  simp [tokenFailCond, hti, h0, hid, hprev, hcnt, hdt]
                  tauto
                have hstep : transformAux sys ac tokens (t :: rest) i true acc =
                    .error "Binary filter is not supported yet." := by
                  simp [transformAux, h0, hid, hcnt, hdt, hxb]
                rw [hstep]
                simp [hfc, Except.isOk, Except.toBool]
              · have hfc : tokenFailCond sys ac tokens i = false := by
                  push_neg at hxb
                  simp [tokenFailCond, hti, h0, hid, hprev, hcnt, hdt, hxb]
                have hstep : transformAux sys ac tokens (t :: rest) i true acc =
                    transformAux sys ac tokens rest (i + 1)
                      (comparisonOps.contains t) (acc ++ t ++ " ") := by
                  simp [transformAux, h0, hid, hcnt, hdt, hxb]
                have hih := ih (i + 1) (acc ++ t ++ " ") hrest
                rw [hop2] at hih
                rw [hstep, hih]
                simp [hfc]
        | false =>
          have hfc : tokenFailCond sys ac tokens i = false := by
            simp [tokenFailCond, hti, h0, hid, hprev]
          have hstep : transformAux sys ac tokens (t :: rest) i false acc =
              transformAux sys ac tokens rest (i + 1) (comparisonOps.contains t)
                (acc ++ t ++ " ") := by
            simp [transformAux, h0, hid]
          have hih := ih (i + 1) (acc ++ t ++ " ") hrest
          rw [hop2] at hih
          rw [hstep, hih]
          simp [hfc]

/-- C8 witness: the guid prefix is stripped on a concrete guid literal,
and the long-int emission holds at the concrete digits 42. -/
theorem guid_and_longint_tokens_witness :
    (tokenizeQuery (String.mk
        (['g', 'u', 'i', 'd'] ++ squote :: (['a', 'b', 'c'] ++ [squote]))) =
      [if String.mk ['g', 'u', 'i', 'd'] = "guid" then
        btickS ++ String.mk ['a', 'b', 'c'] ++ btickS
       else String.mk ['g', 'u', 'i', 'd'] ++
        (btickS ++ String.mk ['a', 'b', 'c'] ++ btickS)]) ∧
    transformQueryTokens entitySystemProperties true
      ["PartitionKey", "===", String.mk ['4', '2'] ++ "L"] =
      .ok ("return ( " ++ "item." ++ "PartitionKey" ++ " " ++ "===" ++
        " " ++ squoteS ++ String.mk ['4', '2'] ++ squoteS ++ " " ++ ")") ∧
    transformQueryTokens entitySystemProperties true
      [String.mk ['4', '2'] ++ "L"] =
      .ok ("return ( " ++ (String.mk ['4', '2'] ++ "L") ++ " " ++ ")") :=
  ⟨guid_and_longint_tokens.1 ['g', 'u', 'i', 'd'] ['a', 'b', 'c']
      (by decide) (by decide),
   guid_and_longint_tokens.2.1 ['4', '2'] (by decide) (by decide),
   guid_and_longint_tokens.2.2 ['4', '2'] (by decide) (by decide)⟩

/-- C9 counterexample to the unamended reading: the literal produced by
X{39}12L{39} directly follows a comparison operator and starts with X,
yet the whole query compiles successfully, because the token contains a
long-int match and the long-int branch is tested before the binary
check. -/
theorem x_literal_longint_compiles :
    tokenizeQuery ("PartitionKey eq X" ++ squoteS ++ "12L" ++ squoteS) =
      ["PartitionKey", "===", "X" ++ btickS ++ "12L" ++ btickS] ∧
    opBefore ["PartitionKey", "===", "X" ++ btickS ++ "12L" ++ btickS] 2 =
      true ∧
    jsStartsWith ("X" ++ btickS ++ "12L" ++ btickS) "X" = true ∧
    (transformEntityQuery
      ("PartitionKey eq X" ++ squoteS ++ "12L" ++ squoteS)).isOk = true :=
  ⟨by decide, by decide, by decide, by decide⟩

/-- C9 (amended): rewriting a token stream succeeds iff no token position
fails, where position i fails exactly when its token t is non-empty and
either (a) t is an identifier token that is not a system property while
custom properties are disallowed, or (b) t directly follows a comparison
operator, is not a single long-int match, does not start with datetime,
and starts with X or binary; and every rewriting failure of an entity
query surfaces through the query path as query-condition-invalid. -/
theorem transform_failure_characterization :
    (∀ (sys : List (String × String)) (ac : Bool) (tokens : List String),
      (transformQueryTokens sys ac tokens).isOk = true ↔
        ∀ i, i < tokens.length → tokenFailCond sys ac tokens i = false) ∧
    (∀ q, (transformEntityQuery q).isOk = false →
      compileEntityFilterSurface (some q) =
        .error .queryConditionInvalid) := by
  constructor
  · intro sys ac tokens
    have h := transformAux_isOk sys ac tokens tokens 0 "return ( " rfl
    rw [show opBefore tokens 0 = false from rfl] at h
    unfold transformQueryTokens
    rw [h]
    constructor
    · intro hh i hi
      exact hh i (Nat.zero_le i) hi
    · intro hh j _ hj
      exact hh j hj
  · intro q hq
    simp only [compileEntityFilterSurface, generateQueryEntityWhereFunction]
    cases he : transformEntityQuery q with
    | ok v =>
      rw [he, exceptIsOk_ok] at hq
      exact absurd hq (by decide)
    | error e => rfl

/-- C9 witness: a binary literal after a comparator makes the rewrite
fail and the failure surfaces as query-condition-invalid. -/
theorem transform_failure_characterization_witness :
    compileEntityFilterSurface
      (some ("RowKey gt binary" ++ squoteS ++ "00" ++ squoteS)) =
      .error .queryConditionInvalid :=
  transform_failure_characterization.2
    ("RowKey gt binary" ++ squoteS ++ "00" ++ squoteS) (by decide)

end Azurite
